import Mathlib

/-!
# imaged: the network message module (`src/netmsg.c`)

A shallow embedding of `netmsg.c`: the storage backend a message owns, the
file identifier allocator, the label/data codec and the validity checker,
followed by theorems about them.

Conventions of the embedding.

* A byte is a `Fin 256`.  `uint64_t` values are natural numbers reduced
  modulo `2^64`; `ssize_t` / `off_t` values are integers obtained through
  `toSsize`, the two's complement reading of a 64-bit word.
* A function that can reach `log_fatal` / `log_fatalx` returns an `Option`;
  `none` means the process was terminated.
* The backend (`read`, `write`, `lseek`, `ftruncate` and the `buffer_*`
  twins, which the module requires to behave identically) is a byte list with
  a cursor.  It fails only for the argument errors of a regular file.
* Memory allocation is a parameter of the functions that allocate: `alloc n`
  says whether the allocator of the process grants a request of `n` bytes.
  The answer depends on the size of the request only; a refused request is
  the `log_fatal` path of the caller.
* The `NETOP_*` values and the directory name `MESSAGES` are declared outside
  `netmsg.c`; they are parameters of the functions that use them.
-/

namespace Netmsg

/-! ## Machine integers -/

abbrev Byte := Fin 256

def UINT64_MAX : Nat := 2 ^ 64 - 1

def SSIZE_MAX : Nat := 2 ^ 63 - 1

/-- Conversion of a natural number to `uint64_t`. -/
def toU64 (n : Nat) : Nat := n % 2 ^ 64

/-- Conversion of an unsigned 64-bit word to `ssize_t` (two's complement). -/
def toSsize (n : Nat) : Int :=
  if n % 2 ^ 64 < 2 ^ 63 then ((n % 2 ^ 64 : Nat) : Int)
  else ((n % 2 ^ 64 : Nat) : Int) - 2 ^ 64

/-- Conversion of an `ssize_t` to `uint64_t`. -/
def ofSsize (i : Int) : Nat := (i % 2 ^ 64).toNat

def byteOf (n : Nat) : Byte := ⟨n % 256, Nat.mod_lt _ (by decide)⟩

/-- The eight bytes in memory of `htobe64 n`: most significant byte first. -/
def htobe64 (n : Nat) : List Byte :=
  [byteOf (n / 256 ^ 7), byteOf (n / 256 ^ 6), byteOf (n / 256 ^ 5), byteOf (n / 256 ^ 4),
   byteOf (n / 256 ^ 3), byteOf (n / 256 ^ 2), byteOf (n / 256 ^ 1), byteOf n]

/-- The value `be64toh` gives to eight bytes read from storage. -/
def be64toh (bs : List Byte) : Nat :=
  bs.foldl (fun acc b => acc * 256 + b.val) 0

/-- The C string held in a buffer: the bytes before the first NUL. -/
def cstr (buf : List Byte) : List Byte := buf.takeWhile (fun b => b != 0)

def strlen (buf : List Byte) : Nat := (cstr buf).length

/-- Whether `reallocarray(NULL, nmemb, size)` returns a buffer.  The argument
`alloc` says, for each number of bytes, whether the allocator of the process
grants a request of that size; the product must fit a `size_t`. -/
def reallocarray (alloc : Nat → Bool) (nmemb size : Nat) : Bool :=
  decide (nmemb * size < 2 ^ 64) && alloc (nmemb * size)

/-! ## Storage backend -/

inductive Errno where
  | EINVAL
  | EFBIG
  | EOVERFLOW
deriving DecidableEq, Repr

/-- Modelled from the spec: the text `strerror(errno)` of the C library, the
"human-readable description" copied into the error buffer. -/
def strerror : Errno → String
  | .EINVAL => "Invalid argument"
  | .EFBIG => "File too large"
  | .EOVERFLOW => "Value too large to be stored in data type"

inductive Whence where
  | SEEK_SET
  | SEEK_CUR
  | SEEK_END
deriving DecidableEq, Repr

/-- Modelled from the spec: the storage a descriptor names, as seen through the
backend contract of section 4.1 (`read`/`write`/`lseek`/`ftruncate` of a
regular file, and the `buffer_*` facility that must behave identically):
the stored bytes and the seek cursor. -/
structure Storage where
  bytes : List Byte
  pos : Nat
deriving DecidableEq, Repr

namespace Storage

def zeros (n : Nat) : List Byte := List.replicate n 0

/-- Modelled from the spec: `seek(offset, whence) -> new offset or failure`. -/
def seek (s : Storage) (offset : Int) (whence : Whence) : Except Errno (Int × Storage) :=
  let base : Int :=
    match whence with
    | .SEEK_SET => 0
    | .SEEK_CUR => (s.pos : Int)
    | .SEEK_END => (s.bytes.length : Int)
  let target := base + offset
  if target < 0 then .error .EINVAL
  else if target > (SSIZE_MAX : Int) then .error .EOVERFLOW
  else .ok (target, { s with pos := target.toNat })

/-- Modelled from the spec: `read(buf, n) -> bytes-read or failure`; a read at
or past the end gives zero bytes, a count above `SSIZE_MAX` is refused. -/
def read (s : Storage) (n : Nat) : Except Errno (Int × List Byte × Storage) :=
  if n > SSIZE_MAX then .error .EINVAL
  else
    let got := (s.bytes.drop s.pos).take n
    .ok ((got.length : Int), got, { s with pos := s.pos + got.length })

/-- Modelled from the spec: `write(buf, n) -> bytes-written or failure`; the
first `n` bytes of `buf` replace the bytes at the cursor, a gap left by a seek
past the end reads as zeros, and nothing changes when `n = 0`. -/
def write (s : Storage) (buf : List Byte) (n : Nat) : Except Errno (Int × Storage) :=
  if n > SSIZE_MAX then .error .EINVAL
  else
    let data := buf.take n
    if data.length = 0 then .ok (0, s)
    else if s.pos + data.length > SSIZE_MAX then .error .EFBIG
    else
      .ok ((data.length : Int),
        { bytes := (s.bytes ++ zeros (s.pos - s.bytes.length)).take s.pos ++ data
                     ++ s.bytes.drop (s.pos + data.length),
          pos := s.pos + data.length })

/-- Modelled from the spec: `truncate(length) -> success or failure`; shrinks,
or grows with zeros, and leaves the cursor alone. -/
def truncate (s : Storage) (length : Int) : Except Errno (Int × Storage) :=
  if length < 0 then .error .EINVAL
  else if length > (SSIZE_MAX : Int) then .error .EFBIG
  else
    .ok (0, { s with bytes := s.bytes.take length.toNat
                                ++ zeros (length.toNat - s.bytes.length) })

end Storage

/-! ## Disk file metadata: the identifier allocator -/

/-- The process-wide `freefiles` list and `maxfileid` counter. -/
structure Allocator where
  freefiles : List Nat
  maxfileid : Nat
deriving DecidableEq, Repr

/-- The decimal digits `%llu` prints. -/
def fmt_llu (n : Nat) : List Char := Nat.toDigits 10 n

/-- The white-space characters of `isspace`: space, `\t`, `\n`, `\v`, `\f`
and `\r`. -/
def c_isspace (c : Char) : Bool :=
  c = ' ' || c = '\t' || c = '\n' || c = Char.ofNat 11 || c = Char.ofNat 12 || c = '\r'

/-- The optional sign of a `%llu` conversion: whether it is a minus, and the
characters after it. -/
def scan_sign : List Char → Bool × List Char
  | '-' :: r => (true, r)
  | '+' :: r => (false, r)
  | r => (false, r)

/-- The conversion `%llu` of `sscanf`: white space is skipped, an optional sign
is read, then a non-empty run of decimal digits.  A value above `UINT64_MAX`
gives `UINT64_MAX` whatever the sign; otherwise a minus sign negates the value
as an unsigned 64-bit word. -/
def scan_llu (cs : List Char) : Option Nat :=
  let signed := scan_sign (cs.dropWhile c_isspace)
  let digits := signed.2.takeWhile Char.isDigit
  if digits.isEmpty then none
  else
    let value := digits.foldl (fun acc c => acc * 10 + (c.toNat - '0'.toNat)) 0
    if value > UINT64_MAX then some UINT64_MAX
    else some (if signed.1 then (2 ^ 64 - value) % 2 ^ 64 else value)

/-- Matching of the literal part of a `sscanf` format against the input.  The
directory name `MESSAGES` is taken to hold no conversion directive. -/
def scan_literal : List Char → List Char → Option (List Char)
  | [], cs => some cs
  | _ :: _, [] => none
  | f :: fs, c :: cs => if f = c then scan_literal fs cs else none

def msgfile_reservepath (MESSAGES : String) (a : Allocator) : Option String × Allocator :=
  match a.freefiles with
  | [] =>
    if a.maxfileid = UINT64_MAX then (none, a)
    else
      (some (String.mk (MESSAGES.data ++ '/' :: fmt_llu a.maxfileid)),
        { a with maxfileid := a.maxfileid + 1 })
  | newid :: rest =>
    (some (String.mk (MESSAGES.data ++ '/' :: fmt_llu newid)), { a with freefiles := rest })

def msgfile_releasepath (MESSAGES : String) (a : Allocator) (oldpath : String) :
    Option Allocator :=
  match (scan_literal (MESSAGES.data ++ ['/']) oldpath.data).bind scan_llu with
  | none => none
  | some oldid => some { a with freefiles := oldid :: a.freefiles }

/-! ## netmsg proper -/

/-- The values of the `NETOP_*` constants, declared outside `netmsg.c`.  They are
labels of one `switch`, hence pairwise distinct. -/
structure Opcodes where
  NETOP_WRITE : Byte
  NETOP_BUNDLE : Byte
  NETOP_SIGN : Byte
  NETOP_HEARTBEAT : Byte
  NETOP_ACK : Byte
  NETOP_ERROR : Byte
  distinct : [NETOP_WRITE, NETOP_BUNDLE, NETOP_SIGN, NETOP_HEARTBEAT, NETOP_ACK,
    NETOP_ERROR].Nodup

/-- The membership test of the six legal opcodes. -/
def Opcodes.legal (T : Opcodes) (opcode : Byte) : Bool :=
  opcode == T.NETOP_WRITE || opcode == T.NETOP_BUNDLE || opcode == T.NETOP_SIGN
    || opcode == T.NETOP_HEARTBEAT || opcode == T.NETOP_ACK || opcode == T.NETOP_ERROR

/-- The `struct netmsg`: `storage` stands for the descriptor, `diskmsg` for the
choice of the five backend function pointers. -/
structure netmsg where
  opcode : Byte
  path : Option String
  storage : Storage
  diskmsg : Bool
  errstr : String
deriving DecidableEq, Repr

def netmsg_error (m : netmsg) : String := m.errstr

def netmsg_clearerror (m : netmsg) : netmsg := { m with errstr := "" }

def netmsg_write (m : netmsg) (bytes : List Byte) (count : Nat) : Int × netmsg :=
  match m.storage.write bytes count with
  | .error e => (-1, { m with errstr := strerror e })
  | .ok (status, st) => (status, { m with storage := st })

def netmsg_read (m : netmsg) (count : Nat) : Int × List Byte × netmsg :=
  match m.storage.read count with
  | .error e => (-1, [], { m with errstr := strerror e })
  | .ok (status, bytes, st) => (status, bytes, { m with storage := st })

def netmsg_seek (m : netmsg) (offset : Int) (whence : Whence) : Int × netmsg :=
  match m.storage.seek offset whence with
  | .error e => (-1, { m with errstr := strerror e })
  | .ok (status, st) => (status, { m with storage := st })

def netmsg_truncate (m : netmsg) (offset : Int) : Int × netmsg :=
  match m.storage.truncate offset with
  | .error e => (-1, { m with errstr := strerror e })
  | .ok (status, st) => (status, { m with storage := st })

/-- The result is `some n` for status `0` with `*out = n`, `none` for `-1`. -/
def netmsg_getclaimedlabelsize (m : netmsg) : Option (Option Nat × netmsg) :=
  let offset : Int := 1
  match m.storage.seek offset .SEEK_SET with
  | .error _ => none
  | .ok (_, st) =>
    match st.read 8 with
    | .error _ => none
    | .ok (bytesread, out, st) =>
      if bytesread < 8 then
        some (none, { m with storage := st, errstr := "label size is incompletely received" })
      else some (some (be64toh out), { m with storage := st })

/-- The result is `some n` for status `0` with `*out = n`, `none` for `-1`. -/
def netmsg_getclaimeddatasize (m : netmsg) : Option (Option Nat × netmsg) :=
  match netmsg_getclaimedlabelsize m with
  | none => none
  | some (none, m) => some (none, m)
  | some (some labelsize, m) =>
    let offset : Int := toSsize (1 + 8 + labelsize)
    match m.storage.seek offset .SEEK_SET with
    | .error _ => none
    | .ok (_, st) =>
      match st.read 8 with
      | .error _ => none
      | .ok (bytesread, out, st) =>
        if bytesread < 8 then
          some (none, { m with storage := st, errstr := "data size is incompletely received" })
        else some (some (be64toh out), { m with storage := st })

def netmsg_getexpectedsizeifvalid (m : netmsg) : Option (Int × netmsg) :=
  let total : Int := 1
  match netmsg_getclaimedlabelsize m with
  | none => none
  | some (r1, m) =>
    let total : Int :=
      match r1 with
      | some scratchsize => toSsize (ofSsize total + (ofSsize (toSsize scratchsize) + 8))
      | none => total
    match netmsg_getclaimeddatasize m with
    | none => none
    | some (r2, m) =>
      let total : Int :=
        match r2 with
        | some scratchsize => toSsize (ofSsize total + (ofSsize (toSsize scratchsize) + 8))
        | none => total
      some (total, netmsg_clearerror m)

def netmsg_committype (m : netmsg) : Option netmsg :=
  match m.storage.seek 0 .SEEK_SET with
  | .error _ => none
  | .ok (_, st) =>
    match st.write [m.opcode] 1 with
    | .error _ => none
    | .ok (byteswritten, st) =>
      if byteswritten < 1 then none
      else
        match st.seek 0 .SEEK_SET with
        | .error _ => none
        | .ok (r, st) => if r ≠ 0 then none else some { m with storage := st }

/-- The result is the returned buffer, the bytes read followed by the
terminator written at `out[bytesread]`; `none` is the `NULL` return. -/
def netmsg_getlabel (alloc : Nat → Bool) (m : netmsg) : Option (Option (List Byte) × netmsg) :=
  let offset : Int := 1 + 8
  match netmsg_getclaimedlabelsize m with
  | none => none
  | some (none, m) => some (none, m)
  | some (some labelsize, m) =>
    match m.storage.seek offset .SEEK_SET with
    | .error _ => none
    | .ok (_, st) =>
      if !reallocarray alloc (toU64 (labelsize + 1)) 1 then none
      else
        match st.read labelsize with
        | .error _ => none
        | .ok (_, out, st) => some (some (out ++ [0]), { m with storage := st })

/-- The first half of `netmsg_setlabel`: when a label is already there, the
bytes stored after it are copied out.  The result is `datacopy`,
`datacopysize` and the message afterwards. -/
def setlabel_backup (alloc : Nat → Bool) (m : netmsg) : Option (List Byte × Nat × netmsg) :=
  match netmsg_getclaimedlabelsize m with
  | none => none
  | some (none, m) => some ([], 0, m)
  | some (some labelsize, m) =>
    match m.storage.seek 0 .SEEK_END with
    | .error _ => none
    | .ok (totalsize, st) =>
      let offset : Int := toSsize (labelsize + 8 + 1)
      let datacopysize : Nat := ofSsize (totalsize - offset)
      if datacopysize > 0 then
        if !reallocarray alloc datacopysize 1 then none
        else
          match st.seek offset .SEEK_SET with
          | .error _ => none
          | .ok (_, st) =>
            match st.read datacopysize with
            | .error _ => none
            | .ok (r, datacopy, st) =>
              if r ≠ toSsize datacopysize then none
              else some (datacopy, datacopysize, { m with storage := st })
      else some ([], datacopysize, { m with storage := st })

/-- The argument `newlabel` is the memory the pointer names, read as a C
string.  The result is the returned status. -/
def netmsg_setlabel (alloc : Nat → Bool) (m : netmsg) (newlabel : List Byte) :
    Option (Int × netmsg) :=
  match setlabel_backup alloc m with
  | none => none
  | some (datacopy, datacopysize, m) =>
    match m.storage.truncate 1 with
    | .error _ => none
    | .ok (_, st) =>
      match st.seek 0 .SEEK_END with
      | .error _ => none
      | .ok (_, st) =>
        let newlabelsize := toU64 (strlen newlabel)
        let benewlabelsize := htobe64 newlabelsize
        match st.write benewlabelsize 8 with
        | .error _ => none
        | .ok (r, st) =>
          if r ≠ 8 then none
          else
            match st.write newlabel newlabelsize with
            | .error _ => none
            | .ok (r, st) =>
              if r ≠ toSsize newlabelsize then none
              else if datacopysize > 0 then
                match st.write datacopy datacopysize with
                | .error _ => none
                | .ok (r, st) =>
                  if r ≠ toSsize datacopysize then none
                  else some (0, { m with storage := st })
              else some (0, { m with storage := st })

/-- The result is the returned buffer with the value stored in `*sizeout`;
`none` is the `NULL` return, which leaves `*sizeout` alone. -/
def netmsg_getdata (alloc : Nat → Bool) (m : netmsg) :
    Option (Option (List Byte × Nat) × netmsg) :=
  match netmsg_getclaimedlabelsize m with
  | none => none
  | some (none, m) => some (none, m)
  | some (some labelsize, m) =>
    match netmsg_getclaimeddatasize m with
    | none => none
    | some (none, m) => some (none, m)
    | some (some datasize, m) =>
      let offset : Int := toSsize (1 + 8 + labelsize + 8)
      match m.storage.seek offset .SEEK_SET with
      | .error _ => none
      | .ok (_, st) =>
        if !reallocarray alloc datasize 1 then none
        else
          match st.read datasize with
          | .error _ => none
          | .ok (bytesread, out, st) =>
            some (some (out, ofSsize bytesread), { m with storage := st })

def netmsg_setdata (m : netmsg) (newdata : List Byte) (datasize : Nat) :
    Option (Int × netmsg) :=
  match netmsg_getclaimedlabelsize m with
  | none => none
  | some (none, m) => some (-1, m)
  | some (some labelsize, m) =>
    let offset : Int := toSsize (1 + 8 + labelsize)
    match m.storage.truncate offset with
    | .error _ => none
    | .ok (_, st) =>
      match st.seek 0 .SEEK_END with
      | .error _ => none
      | .ok (_, st) =>
        let bedatasize := htobe64 datasize
        match st.write bedatasize 8 with
        | .error _ => none
        | .ok (r, st) =>
          if r ≠ 8 then none
          else
            match st.write newdata datasize with
            | .error _ => none
            | .ok (r, st) =>
              if r ≠ toSsize datasize then none
              else some (0, { m with storage := st })

/-- The shape the `switch` of `netmsg_isvalid` gives an opcode: `needlabel`
and `needdata`, or `none` in the `default` case. -/
def needs (T : Opcodes) (opcode : Byte) : Option (Bool × Bool) :=
  if opcode = T.NETOP_WRITE ∨ opcode = T.NETOP_BUNDLE then some (true, true)
  else if opcode = T.NETOP_ERROR then some (true, false)
  else if opcode = T.NETOP_SIGN ∨ opcode = T.NETOP_HEARTBEAT ∨ opcode = T.NETOP_ACK then
    some (false, false)
  else none

/-- The label check of `netmsg_isvalid`: `some true` when the check passes,
`some false` on `goto end`. -/
def isvalid_label (alloc : Nat → Bool) (m : netmsg) : Option (Bool × netmsg) :=
  match netmsg_getclaimedlabelsize m with
  | none => none
  | some (none, m) => some (false, m)
  | some (some claimedsize, m) =>
    match netmsg_getlabel alloc m with
    | none => none
    | some (none, m) => some (false, m)
    | some (some copied, m) =>
      let copiedsize := strlen copied
      if copiedsize ≠ claimedsize then
        let text := "claimed label size " ++ toString claimedsize
          ++ " != actual label strlen " ++ toString copiedsize
        some (false, { m with errstr := text })
      else some (true, m)

/-- The data check of `netmsg_isvalid`: `some true` when the check passes,
`some false` on `goto end`. -/
def isvalid_data (alloc : Nat → Bool) (m : netmsg) : Option (Bool × netmsg) :=
  match netmsg_getclaimeddatasize m with
  | none => none
  | some (none, m) => some (false, m)
  | some (some claimedsize, m) =>
    match netmsg_getdata alloc m with
    | none => none
    | some (none, m) => some (false, m)
    | some (some (_, copiedsize), m) =>
      if copiedsize ≠ claimedsize then
        some (false, { m with errstr := "claimed data size != actual data size" })
      else some (true, m)

/-- The part of `netmsg_isvalid` after the opcode check: the label check, the
data check and the comparison of the expected with the actual size. -/
def isvalid_sections (alloc : Nat → Bool) (needlabel needdata : Bool) (m : netmsg) :
    Option (Bool × Bool × netmsg) :=
  match (if needlabel then isvalid_label alloc m else some (true, m)) with
  | none => none
  | some (false, m) => some (false, false, m)
  | some (true, m) =>
    match (if needdata then isvalid_data alloc m else some (true, m)) with
    | none => none
    | some (false, m) => some (false, false, m)
    | some (true, m) =>
      match netmsg_getexpectedsizeifvalid m with
      | none => none
      | some (calculatedmessagesize, m) =>
        match m.storage.seek 0 .SEEK_END with
        | .error _ => none
        | .ok (actualmessagesize, st) =>
          let m := { m with storage := st }
          if actualmessagesize ≠ calculatedmessagesize then
            let text := "claimed message size " ++ toString calculatedmessagesize
              ++ " != actual message size " ++ toString actualmessagesize
            some (false, true, { m with errstr := text })
          else some (true, false, m)

/-- The result is `(status ≠ 0, *fatal ≠ 0)` with the message afterwards. -/
def netmsg_isvalid (alloc : Nat → Bool) (T : Opcodes) (m : netmsg) :
    Option (Bool × Bool × netmsg) :=
  match needs T m.opcode with
  | none =>
    let text := "illegal message type " ++ toString m.opcode.val
    some (false, true, { m with errstr := text })
  | some (needlabel, needdata) =>
    match m.storage.seek 0 .SEEK_SET with
    | .error _ => none
    | .ok (_, st) =>
      match st.read 1 with
      | .error _ => none
      | .ok (actualtypesize, actualtype, st) =>
        let m := { m with storage := st }
        if actualtypesize ≠ 1 then
          let text := "netmsg_isvalid: complete message type not present"
          some (false, false, { m with errstr := text })
        else if actualtype ≠ [m.opcode] then
          let text := "cached opcode " ++ toString m.opcode.val
            ++ " doesn't match marshalled opcode " ++ toString ((actualtype.headD 0).val)
          some (false, true, { m with errstr := text })
        else isvalid_sections alloc needlabel needdata m

/-- The argument `openok` says whether `open` gives a descriptor for the
reserved path.  The result is the returned message (`none` for `NULL`) and
the allocator afterwards; the outer `none` is process termination. -/
def netmsg_new (T : Opcodes) (MESSAGES : String) (openok : Bool) (a : Allocator)
    (opcode : Byte) : Option (Option netmsg × Allocator) :=
  if opcode = T.NETOP_WRITE ∨ opcode = T.NETOP_BUNDLE then
    match msgfile_reservepath MESSAGES a with
    | (none, a) => some (none, a)
    | (some path, a) =>
      if !openok then
        match msgfile_releasepath MESSAGES a path with
        | none => none
        | some a => some (none, a)
      else
        match netmsg_committype
          { opcode := opcode, path := some path, storage := { bytes := [], pos := 0 },
            diskmsg := true, errstr := "" } with
        | none => none
        | some out => some (some out, a)
  else if opcode = T.NETOP_SIGN ∨ opcode = T.NETOP_HEARTBEAT ∨ opcode = T.NETOP_ACK
      ∨ opcode = T.NETOP_ERROR then
    match netmsg_committype
      { opcode := opcode, path := none, storage := { bytes := [], pos := 0 },
        diskmsg := false, errstr := "" } with
    | none => none
    | some out => some (some out, a)
  else some (none, a)

def netmsg_teardown (MESSAGES : String) (a : Allocator) (m : netmsg) : Option Allocator :=
  match m.path with
  | some path => msgfile_releasepath MESSAGES a path
  | none => some a

/-! ## Notions used in the statements -/

/-- The two messages hold the same frame: only cursor and error text differ. -/
def Same (m m' : netmsg) : Prop :=
  m'.opcode = m.opcode ∧ m'.storage.bytes = m.storage.bytes ∧ m'.path = m.path
    ∧ m'.diskmsg = m.diskmsg

/-- The label size the stored bytes claim, when all eight bytes are there. -/
def labelSizeAt (S : List Byte) : Option Nat :=
  if 9 ≤ S.length then some (be64toh ((S.drop 1).take 8)) else none

/-- The data size the stored bytes claim after a label of `n` bytes. -/
def dataSizeAt (S : List Byte) (n : Nat) : Option Nat :=
  if 1 + 8 + n + 8 ≤ S.length then some (be64toh ((S.drop (1 + 8 + n)).take 8)) else none

/-- The stored bytes hold a complete label section whose label is a C string
of the claimed size: the size field, then as many label bytes as it claims,
none of them NUL. -/
def NulFreeLabelStored (S : List Byte) : Prop :=
  ∃ o L R, S = o :: (htobe64 L.length ++ L ++ R) ∧ ∀ b ∈ L, b ≠ 0

/-- The stored bytes hold, after the label section, a complete data section:
the size field and as many data bytes as it claims. -/
def DataStored (S : List Byte) : Prop :=
  ∃ o L D X, S = o :: (htobe64 L.length ++ L ++ (htobe64 D.length ++ D ++ X))

/-- The allocator grants the buffer `netmsg_getlabel` asks for on the stored
bytes: one byte more than the claimed label size. -/
def LabelBufferGranted (alloc : Nat → Bool) (S : List Byte) : Prop :=
  ∀ n, labelSizeAt S = some n → alloc (n + 1) = true

/-- The allocator grants the buffer `netmsg_getdata` asks for on the stored
bytes: as many bytes as the claimed data size. -/
def DataBufferGranted (alloc : Nat → Bool) (S : List Byte) : Prop :=
  ∀ n d, labelSizeAt S = some n → dataSizeAt S n = some d → alloc d = true

/-- The answer of `netmsg_isvalid` without the message: `(valid, fatal)`. -/
def verdict (alloc : Nat → Bool) (T : Opcodes) (m : netmsg) : Option (Bool × Bool) :=
  (netmsg_isvalid alloc T m).map fun r => (r.1, r.2.1)

/-- The expected total size `netmsg_getexpectedsizeifvalid` computes, without
the message. -/
def expectedSize (m : netmsg) : Option Int :=
  (netmsg_getexpectedsizeifvalid m).map Prod.fst

/-- The well-formed frame of an opcode, after the wire layout of the
specification: the opcode byte, then the label section when the opcode
requires a label, then the data section when it requires data. -/
def frameOf (T : Opcodes) (opcode : Byte) (L D : List Byte) : List Byte :=
  match needs T opcode with
  | some (true, true) => opcode :: (htobe64 L.length ++ L ++ (htobe64 D.length ++ D))
  | some (true, false) => opcode :: (htobe64 L.length ++ L)
  | _ => [opcode]

/-- A message of the given opcode whose storage holds the given bytes, as it
is after the bytes were received through `netmsg_write`. -/
def received (opcode : Byte) (S : List Byte) : netmsg :=
  { opcode := opcode, path := none, storage := { bytes := S, pos := S.length },
    diskmsg := false, errstr := "" }

/-! ## Notions used in the statements on the allocator -/

/-- The path `asprintf` formats for an identifier: the directory, a slash and
the decimal digits. -/
def pathOf (MESSAGES : String) (i : Nat) : String :=
  String.mk (MESSAGES.data ++ '/' :: fmt_llu i)

/-- The identifier the `sscanf` of `msgfile_releasepath` extracts from a path;
`none` when it does not convert one item. -/
def path_id (MESSAGES : String) (path : String) : Option Nat :=
  (scan_literal (MESSAGES.data ++ ['/']) path.data).bind scan_llu

/-- The values of a well-formed allocator are 64-bit words. -/
def Allocator.wf (a : Allocator) : Prop :=
  a.maxfileid ≤ UINT64_MAX ∧ ∀ i ∈ a.freefiles, i ≤ UINT64_MAX

/-- Release of the paths of the given identifiers, in the order of the list. -/
def releaseAll (MESSAGES : String) (a : Allocator) : List Nat → Option Allocator
  | [] => some a
  | i :: rest =>
    match msgfile_releasepath MESSAGES a (pathOf MESSAGES i) with
    | none => none
    | some a' => releaseAll MESSAGES a' rest

/-- The results of `k` successive calls of `msgfile_reservepath`, first call
first, and the allocator afterwards. -/
def reserveN (MESSAGES : String) : Nat → Allocator → List (Option String) × Allocator
  | 0, a => ([], a)
  | k + 1, a =>
    ((msgfile_reservepath MESSAGES a).1
        :: (reserveN MESSAGES k (msgfile_reservepath MESSAGES a).2).1,
      (reserveN MESSAGES k (msgfile_reservepath MESSAGES a).2).2)

/-- A call of the allocator by the message module. -/
inductive AllocOp where
  | reserve
  | release (path : String)
deriving DecidableEq, Repr

/-- The allocator together with the paths the live messages hold. -/
structure AllocSys where
  alloc : Allocator
  live : List String
deriving DecidableEq, Repr

/-- One call on the allocator.  A release is made only for a path a live
message holds (a path reserved and not released since); `none` stands for a
call that is not permitted or that terminates the process. -/
def AllocSys.step (MESSAGES : String) (s : AllocSys) : AllocOp → Option AllocSys
  | .reserve =>
    match msgfile_reservepath MESSAGES s.alloc with
    | (some path, a) => some { alloc := a, live := path :: s.live }
    | (none, a) => some { alloc := a, live := s.live }
  | .release path =>
    if path ∈ s.live then
      match msgfile_releasepath MESSAGES s.alloc path with
      | none => none
      | some a => some { alloc := a, live := s.live.erase path }
    else none

/-- A sequence of calls on the allocator. -/
def AllocSys.run (MESSAGES : String) : List AllocOp → AllocSys → Option AllocSys
  | [], s => some s
  | op :: ops, s =>
    match s.step MESSAGES op with
    | none => none
    | some s' => AllocSys.run MESSAGES ops s'

/-- The identifiers in use: those of the paths the live messages hold. -/
def AllocSys.inUse (MESSAGES : String) (s : AllocSys) : List Nat :=
  s.live.filterMap (path_id MESSAGES)

/-- The invariant of the allocator and the live paths. -/
def AllocSys.Inv (MESSAGES : String) (s : AllocSys) : Prop :=
  s.alloc.maxfileid ≤ UINT64_MAX
    ∧ s.alloc.freefiles.Nodup
    ∧ s.live.Nodup
    ∧ (∀ i ∈ s.alloc.freefiles, i < s.alloc.maxfileid)
    ∧ (∀ p ∈ s.live, ∃ i, p = pathOf MESSAGES i ∧ i < s.alloc.maxfileid
        ∧ i ∉ s.alloc.freefiles)

/-- The step of the digit fold of `scan_llu`. -/
def digitStep (acc : Nat) (c : Char) : Nat := acc * 10 + (c.toNat - '0'.toNat)

/-- The message a successful `netmsg_new` returns: the recorded opcode, the
reserved path if any, the single committed opcode byte with the cursor at
offset 0, the disk backend exactly when there is a path, no error text. -/
def created (opcode : Byte) (path : Option String) : netmsg :=
  ⟨opcode, path, ⟨[opcode], 0⟩, path.isSome, ""⟩

/-- The claimed label size `netmsg_getclaimedlabelsize` returns, without the
message: `some none` is the failure status. -/
def claimedLabelSize (m : netmsg) : Option (Option Nat) :=
  (netmsg_getclaimedlabelsize m).map Prod.fst

/-- The claimed data size `netmsg_getclaimeddatasize` returns, without the
message: `some none` is the failure status. -/
def claimedDataSize (m : netmsg) : Option (Option Nat) :=
  (netmsg_getclaimeddatasize m).map Prod.fst

/-! ## Values used in the examples -/

/-- A table of opcode values for the examples; the theorems hold for every
table. -/
def sampleOps : Opcodes :=
  { NETOP_WRITE := 1, NETOP_BUNDLE := 2, NETOP_SIGN := 3, NETOP_HEARTBEAT := 4,
    NETOP_ACK := 5, NETOP_ERROR := 6, distinct := by decide }

/-- The allocator that grants exactly the requests of at most `limit` bytes. -/
def allocUpTo (limit : Nat) : Nat → Bool := fun n => decide (n ≤ limit)

/-- An allocator for the examples: it grants requests of up to 4 GiB. -/
def sampleAlloc : Nat → Bool := allocUpTo (2 ^ 32)

/-- The bytes of the label "obj42". -/
def obj42 : List Byte := [111, 98, 106, 52, 50]

/-- The bytes of the payload "hello". -/
def hello : List Byte := [104, 101, 108, 108, 111]

/-- The allocator of a process that has not reserved a path yet. -/
def freshAllocator : Allocator := { freefiles := [], maxfileid := 0 }

/-- The message `netmsg_new` returns for `NETOP_WRITE` of `sampleOps` from
`freshAllocator` with the directory "messages". -/
def freshWrite : netmsg :=
  { opcode := 1, path := some "messages/0", storage := { bytes := [1], pos := 0 },
    diskmsg := true, errstr := "" }

/-- The message `netmsg_new` returns for `NETOP_ACK` of `sampleOps`. -/
def freshAck : netmsg :=
  { opcode := 5, path := none, storage := { bytes := [5], pos := 0 },
    diskmsg := false, errstr := "" }

/-- Scenario B: the WRITE message after `setlabel "obj42"` and
`setdata "hello"`, 27 bytes. -/
def scenarioB : List Byte :=
  [1, 0, 0, 0, 0, 0, 0, 0, 5, 111, 98, 106, 52, 50, 0, 0, 0, 0, 0, 0, 0, 5, 104, 101, 108,
    108, 111]

/-! ## Lemmas on the machine integers, the backend and the codec -/

theorem htobe64_length (n : Nat) : (htobe64 n).length = 8 := rfl

theorem be64toh_htobe64 (n : Nat) (h : n < 2 ^ 64) : be64toh (htobe64 n) = n := by
  simp only [htobe64, be64toh, byteOf, List.foldl]
  omega

theorem toSsize_of_lt (n : Nat) (h : n < 2 ^ 63) : toSsize n = (n : Int) := by
  unfold toSsize
  have : n % 2 ^ 64 = n := Nat.mod_eq_of_lt (by omega)
  rw [this, if_pos h]

theorem ofSsize_natCast (n : Nat) (h : n < 2 ^ 64) : ofSsize (n : Int) = n := by
  unfold ofSsize
  omega

theorem be64toh_lt (bs : List Byte) (h : bs.length = 8) : be64toh bs < 2 ^ 64 := by
  match bs, h with
  | [a, b, c, d, e, f, g, i], _ =>
    simp only [be64toh, List.foldl]
    omega

theorem seek_set (st : Storage) (off : Int) (h0 : 0 ≤ off) (h : off ≤ (SSIZE_MAX : Int)) :
    st.seek off .SEEK_SET = .ok (off, { st with pos := off.toNat }) := by
  unfold Storage.seek
  simp only [zero_add]
  rw [if_neg (by omega), if_neg (by omega)]

theorem seek_end (st : Storage) (h : st.bytes.length ≤ SSIZE_MAX) :
    st.seek 0 .SEEK_END
      = .ok ((st.bytes.length : Int), { st with pos := st.bytes.length }) := by
  unfold Storage.seek
  simp only [add_zero]
  rw [if_neg (by omega), if_neg (by omega)]
  simp

theorem read_ok (st : Storage) (n : Nat) (h : n ≤ SSIZE_MAX) :
    st.read n = .ok ((((st.bytes.drop st.pos).take n).length : Int),
      (st.bytes.drop st.pos).take n,
      { st with pos := st.pos + ((st.bytes.drop st.pos).take n).length }) := by
  unfold Storage.read
  rw [if_neg (by omega)]

theorem Same.rfl_ (m : netmsg) : Same m m := ⟨rfl, rfl, rfl, rfl⟩

theorem Same.trans_ {a b c : netmsg} (h1 : Same a b) (h2 : Same b c) : Same a c :=
  ⟨h2.1.trans h1.1, h2.2.1.trans h1.2.1, h2.2.2.1.trans h1.2.2.1, h2.2.2.2.trans h1.2.2.2⟩

theorem SSIZE_MAX_eq : SSIZE_MAX = 9223372036854775807 := by decide

theorem getclaimedlabelsize_spec (m : netmsg) :
    ∃ m', netmsg_getclaimedlabelsize m = some (labelSizeAt m.storage.bytes, m') ∧ Same m m' := by
  unfold netmsg_getclaimedlabelsize
  dsimp only
  rw [seek_set _ 1 (by omega) (by rw [SSIZE_MAX_eq]; omega)]
  dsimp only
  rw [read_ok _ 8 (by rw [SSIZE_MAX_eq]; omega)]
  simp only [labelSizeAt, List.length_take, List.length_drop]
  by_cases h : 9 ≤ m.storage.bytes.length
  · rw [if_neg (by simp; omega), if_pos h]
    exact ⟨_, rfl, rfl, rfl, rfl, rfl⟩
  · rw [if_pos (by simp; omega), if_neg h]
    exact ⟨_, rfl, rfl, rfl, rfl, rfl⟩

theorem getclaimeddatasize_none (m : netmsg) (hn : labelSizeAt m.storage.bytes = none) :
    ∃ m', netmsg_getclaimeddatasize m = some (none, m') ∧ Same m m' := by
  obtain ⟨m1, h1, hs1⟩ := getclaimedlabelsize_spec m
  unfold netmsg_getclaimeddatasize
  rw [h1, hn]
  exact ⟨m1, rfl, hs1⟩

theorem getclaimeddatasize_spec (m : netmsg) (n : Nat)
    (hn : labelSizeAt m.storage.bytes = some n) (hoff : 1 + 8 + n ≤ SSIZE_MAX) :
    ∃ m', netmsg_getclaimeddatasize m = some (dataSizeAt m.storage.bytes n, m')
      ∧ Same m m' := by
  obtain ⟨m1, h1, hs1⟩ := getclaimedlabelsize_spec m
  rw [SSIZE_MAX_eq] at hoff
  unfold netmsg_getclaimeddatasize
  rw [h1, hn]
  dsimp only
  rw [toSsize_of_lt _ (by omega), seek_set _ _ (by omega) (by rw [SSIZE_MAX_eq]; omega)]
  dsimp only
  rw [read_ok _ 8 (by rw [SSIZE_MAX_eq]; omega)]
  simp only [dataSizeAt, List.length_take, List.length_drop, Int.toNat_ofNat, hs1.2.1]
  by_cases h : 1 + 8 + n + 8 ≤ m.storage.bytes.length
  · rw [if_neg (by simp; omega), if_pos h]
    exact ⟨_, rfl, hs1.1, rfl, hs1.2.2.1, hs1.2.2.2⟩
  · rw [if_pos (by simp; omega), if_neg h]
    exact ⟨_, rfl, hs1.1, rfl, hs1.2.2.1, hs1.2.2.2⟩

theorem getlabel_none (alloc : Nat → Bool) (m : netmsg) (hn : labelSizeAt m.storage.bytes = none) :
    ∃ m', netmsg_getlabel alloc m = some (none, m') ∧ Same m m' := by
  obtain ⟨m1, h1, hs1⟩ := getclaimedlabelsize_spec m
  unfold netmsg_getlabel
  dsimp only
  rw [h1, hn]
  exact ⟨m1, rfl, hs1⟩

theorem getlabel_spec (alloc : Nat → Bool) (m : netmsg) (n : Nat)
    (hn : labelSizeAt m.storage.bytes = some n) (hsz : n + 1 ≤ SSIZE_MAX)
    (ha : alloc (n + 1) = true) :
    ∃ m', netmsg_getlabel alloc m = some (some ((m.storage.bytes.drop 9).take n ++ [0]), m')
      ∧ Same m m' := by
  obtain ⟨m1, h1, hs1⟩ := getclaimedlabelsize_spec m
  rw [SSIZE_MAX_eq] at hsz
  unfold netmsg_getlabel
  dsimp only
  rw [h1, hn]
  dsimp only
  rw [seek_set _ _ (by omega) (by rw [SSIZE_MAX_eq]; omega)]
  dsimp only
  have hr : reallocarray alloc (toU64 (n + 1)) 1 = true := by
    unfold reallocarray toU64
    rw [Nat.mod_eq_of_lt (by omega), Nat.mul_one, ha]
    simp only [Bool.and_true, decide_eq_true_eq]
    omega
  rw [hr, read_ok _ n (by rw [SSIZE_MAX_eq]; omega)]
  simp only [hs1.2.1]
  exact ⟨_, rfl, hs1.1, rfl, hs1.2.2.1, hs1.2.2.2⟩

theorem getdata_spec (alloc : Nat → Bool) (m : netmsg) (n d : Nat)
    (hn : labelSizeAt m.storage.bytes = some n) (hd : dataSizeAt m.storage.bytes n = some d)
    (hoff : 1 + 8 + n + 8 ≤ SSIZE_MAX) (hsz : d ≤ SSIZE_MAX) (ha : alloc d = true) :
    ∃ m', netmsg_getdata alloc m
        = some (some ((m.storage.bytes.drop (1 + 8 + n + 8)).take d,
            ((m.storage.bytes.drop (1 + 8 + n + 8)).take d).length), m')
      ∧ Same m m' := by
  obtain ⟨m1, h1, hs1⟩ := getclaimedlabelsize_spec m
  obtain ⟨m2, h2, hs2⟩ := getclaimeddatasize_spec m1 n (by rw [hs1.2.1]; exact hn)
    (by rw [SSIZE_MAX_eq] at hoff ⊢; omega)
  rw [hs1.2.1, hd] at h2
  have hs := Same.trans_ hs1 hs2
  rw [SSIZE_MAX_eq] at hoff hsz
  unfold netmsg_getdata
  rw [h1, hn]
  dsimp only
  rw [h2]
  dsimp only
  rw [toSsize_of_lt _ (by omega), seek_set _ _ (by omega) (by rw [SSIZE_MAX_eq]; omega)]
  dsimp only
  have hr : reallocarray alloc d 1 = true := by
    unfold reallocarray
    rw [Nat.mul_one, ha]
    simp only [Bool.and_true, decide_eq_true_eq]
    omega
  rw [hr, read_ok _ d (by rw [SSIZE_MAX_eq]; omega)]
  simp only [hs.2.1, Int.toNat_ofNat]
  rw [ofSsize_natCast _ (by rw [List.length_take]; omega)]
  exact ⟨_, rfl, hs.1, rfl, hs.2.2.1, hs.2.2.2⟩

theorem write_at_end (st : Storage) (buf : List Byte) (n : Nat)
    (hpos : st.pos = st.bytes.length) (hn : n ≤ SSIZE_MAX)
    (hlen : st.bytes.length + (buf.take n).length ≤ SSIZE_MAX) :
    st.write buf n = .ok (((buf.take n).length : Int),
      { bytes := st.bytes ++ buf.take n, pos := st.bytes.length + (buf.take n).length }) := by
  unfold Storage.write
  rw [if_neg (by omega)]
  dsimp only
  by_cases h0 : (buf.take n).length = 0
  · rw [if_pos h0]
    have : buf.take n = [] := List.length_eq_zero.mp h0
    rw [this]
    cases st
    simp_all
  · rw [if_neg h0, if_neg (by omega), hpos]
    simp [Storage.zeros]

theorem cstr_append_nul (L rest : List Byte) (h : ∀ b ∈ L, b ≠ 0) :
    cstr (L ++ 0 :: rest) = L := by
  unfold cstr
  induction L with
  | nil => simp
  | cons a t ih =>
    have ha : a ≠ 0 := h a (List.mem_cons_self _ _)
    have ht : ∀ b ∈ t, b ≠ 0 := fun b hb => h b (List.mem_cons_of_mem _ hb)
    simp [List.takeWhile_cons, ha, ih ht]

theorem cstr_of_nulfree (L : List Byte) (h : ∀ b ∈ L, b ≠ 0) : cstr L = L := by
  unfold cstr
  induction L with
  | nil => simp
  | cons a t ih =>
    have ha : a ≠ 0 := h a (List.mem_cons_self _ _)
    have ht : ∀ b ∈ t, b ≠ 0 := fun b hb => h b (List.mem_cons_of_mem _ hb)
    simp [List.takeWhile_cons, ha, ih ht]

theorem cstr_nulfree (buf : List Byte) : ∀ b ∈ cstr buf, b ≠ 0 := by
  intro b hb
  have := List.mem_takeWhile_imp hb
  simpa using this

theorem cstr_length_le (buf : List Byte) : (cstr buf).length ≤ buf.length := by
  unfold cstr
  exact (List.takeWhile_sublist _).length_le

theorem take_strlen (buf : List Byte) : buf.take (strlen buf) = cstr buf := by
  unfold strlen cstr
  induction buf with
  | nil => simp
  | cons a t ih =>
    by_cases ha : a = 0
    · simp [List.takeWhile_cons, ha]
    · simp [List.takeWhile_cons, ha, ih]

theorem labelSizeAt_none_iff (S : List Byte) : labelSizeAt S = none ↔ S.length < 9 := by
  unfold labelSizeAt
  by_cases h : 9 ≤ S.length
  · simp [h]
  · simp [h]; omega

theorem labelSizeAt_lt (S : List Byte) (n : Nat) (h : labelSizeAt S = some n) :
    9 ≤ S.length ∧ n < 2 ^ 64 := by
  unfold labelSizeAt at h
  by_cases h9 : 9 ≤ S.length
  · rw [if_pos h9] at h
    refine ⟨h9, ?_⟩
    have := be64toh_lt ((S.drop 1).take 8) (by rw [List.length_take, List.length_drop]; omega)
    simp only [Option.some.injEq] at h
    omega
  · rw [if_neg h9] at h
    cases h

theorem setlabel_backup_none (alloc : Nat → Bool) (m : netmsg)
    (hn : labelSizeAt m.storage.bytes = none) :
    ∃ m', setlabel_backup alloc m = some ([], 0, m') ∧ Same m m' := by
  obtain ⟨m1, h1, hs1⟩ := getclaimedlabelsize_spec m
  unfold setlabel_backup
  rw [h1, hn]
  exact ⟨m1, rfl, hs1⟩

theorem truncate_int (st : Storage) (len : Int) (h0 : 0 ≤ len) (h : len ≤ (SSIZE_MAX : Int)) :
    st.truncate len = .ok (0, ⟨st.bytes.take len.toNat
      ++ Storage.zeros (len.toNat - st.bytes.length), st.pos⟩) := by
  unfold Storage.truncate
  rw [if_neg (by omega), if_neg (by omega)]

theorem zeros_length (n : Nat) : (Storage.zeros n).length = n := by
  simp [Storage.zeros]

theorem setlabel_after_backup (alloc : Nat → Bool) (m m1 : netmsg) (newlabel dc : List Byte)
    (dsz : Nat)
    (hb : setlabel_backup alloc m = some (dc, dsz, m1)) (hs : Same m m1)
    (hdc : dc.length = dsz)
    (hlen : 1 + 8 + strlen newlabel + dsz ≤ SSIZE_MAX) :
    ∃ m', netmsg_setlabel alloc m newlabel = some (0, m') ∧ m'.opcode = m.opcode
      ∧ m'.path = m.path ∧ m'.diskmsg = m.diskmsg
      ∧ m'.storage.bytes = m.storage.bytes.take 1
          ++ Storage.zeros (1 - m.storage.bytes.length)
          ++ htobe64 (strlen newlabel) ++ cstr newlabel ++ dc := by
  have hbytes := hs.2.1
  rw [SSIZE_MAX_eq] at hlen
  have hB : (m.storage.bytes.take 1 ++ Storage.zeros (1 - m.storage.bytes.length)).length = 1 := by
    rw [List.length_append, List.length_take, zeros_length]; omega
  generalize hBdef : m.storage.bytes.take 1 ++ Storage.zeros (1 - m.storage.bytes.length) = B
    at hB
  have htr : m1.storage.truncate 1 = .ok (0, ⟨B, m1.storage.pos⟩) := by
    rw [truncate_int _ 1 (by omega) (by rw [SSIZE_MAX_eq]; omega), hbytes]
    simp only [show (1 : Int).toNat = 1 from rfl, hBdef]
  have hu : toU64 (strlen newlabel) = strlen newlabel := by
    unfold toU64; omega
  have hcl : (cstr newlabel).length = strlen newlabel := rfl
  unfold netmsg_setlabel
  rw [hb]
  dsimp only
  rw [htr]
  dsimp only
  rw [seek_end _ (by dsimp only; rw [hB, SSIZE_MAX_eq]; omega)]
  dsimp only
  rw [hu, write_at_end _ _ 8 rfl (by decide)
    (by dsimp only; rw [hB, SSIZE_MAX_eq, List.length_take]; omega)]
  have h8 : (htobe64 (strlen newlabel)).take 8 = htobe64 (strlen newlabel) := rfl
  simp only [h8, htobe64_length, hB, Nat.cast_ofNat, ne_eq, not_true_eq_false, if_false]
  rw [write_at_end _ _ (strlen newlabel)
    (by dsimp only; rw [List.length_append, hB, htobe64_length])
    (by rw [SSIZE_MAX_eq]; omega)
    (by dsimp only; rw [List.length_append, hB, htobe64_length, SSIZE_MAX_eq, List.length_take];
        omega)]
  simp only [take_strlen, hcl, toSsize_of_lt (strlen newlabel) (by omega), ne_eq,
    not_true_eq_false, if_false]
  by_cases h0 : dsz > 0
  · rw [if_pos h0]
    rw [write_at_end _ _ dsz
      (by simp only [List.length_append, hB, htobe64_length, hcl])
      (by rw [SSIZE_MAX_eq]; omega)
      (by dsimp only
          rw [List.length_append, List.length_append, hB, htobe64_length, SSIZE_MAX_eq,
            List.length_take, hcl]
          omega)]
    have htk : dc.take dsz = dc := List.take_of_length_le (by omega)
    simp only [htk, hdc, toSsize_of_lt dsz (by omega), ne_eq, not_true_eq_false, if_false]
    exact ⟨_, rfl, hs.1, hs.2.2.1, hs.2.2.2, rfl⟩
  · rw [if_neg h0]
    have : dc = [] := List.length_eq_zero.mp (by omega)
    subst this
    exact ⟨_, rfl, hs.1, hs.2.2.1, hs.2.2.2, by simp⟩

theorem setdata_none (m : netmsg) (newdata : List Byte) (datasize : Nat)
    (hn : labelSizeAt m.storage.bytes = none) :
    ∃ m', netmsg_setdata m newdata datasize = some (-1, m') ∧ Same m m' := by
  obtain ⟨m1, h1, hs1⟩ := getclaimedlabelsize_spec m
  unfold netmsg_setdata
  rw [h1, hn]
  exact ⟨m1, rfl, hs1⟩

theorem setdata_spec (m : netmsg) (newdata : List Byte) (datasize n : Nat)
    (hn : labelSizeAt m.storage.bytes = some n)
    (hd : datasize ≤ newdata.length)
    (hlen : 1 + 8 + n + 8 + datasize ≤ SSIZE_MAX) :
    ∃ m', netmsg_setdata m newdata datasize = some (0, m') ∧ m'.opcode = m.opcode
      ∧ m'.path = m.path ∧ m'.diskmsg = m.diskmsg
      ∧ m'.storage.bytes = m.storage.bytes.take (1 + 8 + n)
          ++ Storage.zeros (1 + 8 + n - m.storage.bytes.length)
          ++ htobe64 datasize ++ newdata.take datasize := by
  obtain ⟨m1, h1, hs1⟩ := getclaimedlabelsize_spec m
  have hbytes := hs1.2.1
  rw [SSIZE_MAX_eq] at hlen
  have hB : (m.storage.bytes.take (1 + 8 + n)
      ++ Storage.zeros (1 + 8 + n - m.storage.bytes.length)).length = 1 + 8 + n := by
    rw [List.length_append, List.length_take, zeros_length]; omega
  generalize hBdef : m.storage.bytes.take (1 + 8 + n)
      ++ Storage.zeros (1 + 8 + n - m.storage.bytes.length) = B at hB
  have htr : m1.storage.truncate (toSsize (1 + 8 + n)) = .ok (0, ⟨B, m1.storage.pos⟩) := by
    rw [toSsize_of_lt _ (by omega),
      truncate_int _ _ (by omega) (by rw [SSIZE_MAX_eq]; omega), hbytes]
    simp only [Int.toNat_ofNat, hBdef]
  have htl : (newdata.take datasize).length = datasize := by
    rw [List.length_take]; omega
  unfold netmsg_setdata
  rw [h1, hn]
  dsimp only
  rw [htr]
  dsimp only
  rw [seek_end _ (by dsimp only; rw [hB, SSIZE_MAX_eq]; omega)]
  dsimp only
  rw [write_at_end _ _ 8 rfl (by decide)
    (by dsimp only; rw [hB, SSIZE_MAX_eq, List.length_take]; omega)]
  have h8 : (htobe64 datasize).take 8 = htobe64 datasize := rfl
  simp only [h8, htobe64_length, hB, Nat.cast_ofNat, ne_eq, not_true_eq_false, if_false]
  rw [write_at_end _ _ datasize
    (by dsimp only; rw [List.length_append, hB, htobe64_length])
    (by rw [SSIZE_MAX_eq]; omega)
    (by dsimp only; rw [List.length_append, hB, htobe64_length, SSIZE_MAX_eq, htl]; omega)]
  simp only [htl, toSsize_of_lt datasize (by omega), ne_eq, not_true_eq_false, if_false]
  exact ⟨_, rfl, hs1.1, hs1.2.2.1, hs1.2.2.2, rfl⟩

theorem labelSizeAt_frame (o : Byte) (b P : List Byte) (hb : b.length = 8) :
    labelSizeAt (o :: (b ++ P)) = some (be64toh b) := by
  unfold labelSizeAt
  rw [if_pos (by simp [hb])]
  simp [List.take_append_of_le_length, hb]

theorem label_bytes_frame (o : Byte) (b P : List Byte) (n : Nat) (hb : b.length = 8) :
    ((o :: (b ++ P)).drop 9).take n = P.take n := by
  have : (o :: (b ++ P)).drop 9 = P := by
    rw [show 9 = 8 + 1 from rfl, List.drop_succ_cons, ← hb, List.drop_left]
  rw [this]

theorem dataSizeAt_frame (o : Byte) (b L c Q : List Byte) (hb : b.length = 8)
    (hc : c.length = 8) :
    dataSizeAt (o :: (b ++ L ++ (c ++ Q))) L.length = some (be64toh c) := by
  unfold dataSizeAt
  rw [if_pos (by simp [hb, hc]; omega)]
  have : (o :: (b ++ L ++ (c ++ Q))).drop (1 + 8 + L.length) = c ++ Q := by
    rw [show 1 + 8 + L.length = (b ++ L).length + 1 by simp [hb]; omega, List.drop_succ_cons,
      List.drop_left]
  rw [this, ← hc, List.take_left]

theorem dataSizeAt_short (o : Byte) (b L R : List Byte) (hb : b.length = 8)
    (hR : R.length < 8) :
    dataSizeAt (o :: (b ++ L ++ R)) L.length = none := by
  unfold dataSizeAt
  rw [if_neg (by simp [hb]; omega)]

theorem data_bytes_frame (o : Byte) (b L c Q : List Byte) (d : Nat) (hb : b.length = 8)
    (hc : c.length = 8) :
    ((o :: (b ++ L ++ (c ++ Q))).drop (1 + 8 + L.length + 8)).take d = Q.take d := by
  have : (o :: (b ++ L ++ (c ++ Q))).drop (1 + 8 + L.length + 8) = Q := by
    rw [show 1 + 8 + L.length + 8 = (b ++ L ++ c).length + 1 by simp [hb, hc]; omega,
      List.drop_succ_cons, ← List.append_assoc, List.drop_left]
  rw [this]

theorem committype_spec (m : netmsg) (h : m.storage.bytes = []) :
    ∃ m', netmsg_committype m = some m' ∧ m'.opcode = m.opcode ∧ m'.path = m.path
      ∧ m'.diskmsg = m.diskmsg ∧ m'.storage = ⟨[m.opcode], 0⟩ := by
  unfold netmsg_committype
  simp [Storage.seek, Storage.write, h, SSIZE_MAX, Storage.zeros]

theorem new_spec (T : Opcodes) (MESSAGES : String) (openok : Bool) (a a' : Allocator)
    (opcode : Byte) (m : netmsg)
    (h : netmsg_new T MESSAGES openok a opcode = some (some m, a')) :
    T.legal opcode = true ∧ m.opcode = opcode ∧ m.storage = ⟨[opcode], 0⟩ := by
  unfold netmsg_new at h
  by_cases hd : opcode = T.NETOP_WRITE ∨ opcode = T.NETOP_BUNDLE
  · rw [if_pos hd] at h
    have hl : T.legal opcode = true := by
      unfold Opcodes.legal
      rcases hd with hd | hd <;> simp [hd]
    refine ⟨hl, ?_⟩
    rcases hr : msgfile_reservepath MESSAGES a with ⟨_ | path, a1⟩
    · rw [hr] at h
      simp at h
    · rw [hr] at h
      dsimp only at h
      cases openok
      · simp only [Bool.not_false, if_true] at h
        cases hrel : msgfile_releasepath MESSAGES a1 path <;> rw [hrel] at h <;> simp at h
      · simp only [Bool.not_true, Bool.false_eq_true, if_false] at h
        obtain ⟨m', hm', ho, _, _, hst⟩ := committype_spec
          { opcode := opcode, path := some path, storage := { bytes := [], pos := 0 },
            diskmsg := true, errstr := "" } rfl
        rw [hm'] at h
        simp only [Option.some.injEq, Prod.mk.injEq] at h
        rw [← h.1]
        exact ⟨ho, hst⟩
  · rw [if_neg hd] at h
    by_cases hb : opcode = T.NETOP_SIGN ∨ opcode = T.NETOP_HEARTBEAT ∨ opcode = T.NETOP_ACK
        ∨ opcode = T.NETOP_ERROR
    · rw [if_pos hb] at h
      have hl : T.legal opcode = true := by
        unfold Opcodes.legal
        rcases hb with hb | hb | hb | hb <;> simp [hb]
      refine ⟨hl, ?_⟩
      obtain ⟨m', hm', ho, _, _, hst⟩ := committype_spec
        { opcode := opcode, path := none, storage := { bytes := [], pos := 0 },
          diskmsg := false, errstr := "" } rfl
      rw [hm'] at h
      simp only [Option.some.injEq, Prod.mk.injEq] at h
      rw [← h.1]
      exact ⟨ho, hst⟩
    · rw [if_neg hb] at h
      simp at h

theorem labelSizeAt_wf (o : Byte) (L R : List Byte) (hl : L.length < 2 ^ 64) :
    labelSizeAt (o :: (htobe64 L.length ++ L ++ R)) = some L.length := by
  rw [List.append_assoc, labelSizeAt_frame _ _ _ (htobe64_length _), be64toh_htobe64 _ hl]

theorem dataSizeAt_wf (o : Byte) (L D X : List Byte) (hd : D.length < 2 ^ 64) :
    dataSizeAt (o :: (htobe64 L.length ++ L ++ (htobe64 D.length ++ D ++ X))) L.length
      = some D.length := by
  rw [List.append_assoc (htobe64 D.length),
    dataSizeAt_frame _ _ _ _ _ (htobe64_length _) (htobe64_length _), be64toh_htobe64 _ hd]

theorem setlabel_fresh (alloc : Nat → Bool) (m : netmsg) (o : Byte) (L : List Byte)
    (hS : m.storage.bytes = [o]) (hL : ∀ b ∈ L, b ≠ 0)
    (hlen : 1 + 8 + L.length ≤ SSIZE_MAX) :
    ∃ m', netmsg_setlabel alloc m L = some (0, m') ∧ m'.opcode = m.opcode ∧ m'.path = m.path
      ∧ m'.diskmsg = m.diskmsg ∧ m'.storage.bytes = o :: (htobe64 L.length ++ L) := by
  have hnone : labelSizeAt m.storage.bytes = none := by
    rw [labelSizeAt_none_iff, hS]; simp
  obtain ⟨m1, hb, hs⟩ := setlabel_backup_none alloc m hnone
  have hsl : strlen L = L.length := by unfold strlen; rw [cstr_of_nulfree L hL]
  obtain ⟨m', h, ho, hp, hd, hbytes⟩ := setlabel_after_backup alloc m m1 L [] 0 hb hs rfl
    (by rw [hsl]; exact hlen)
  refine ⟨m', h, ho, hp, hd, ?_⟩
  rw [hbytes, hS, hsl, cstr_of_nulfree L hL]
  simp [Storage.zeros]

theorem setdata_frame (m : netmsg) (o : Byte) (L R D : List Byte)
    (hS : m.storage.bytes = o :: (htobe64 L.length ++ L ++ R))
    (hlen : 1 + 8 + L.length + 8 + D.length ≤ SSIZE_MAX) :
    ∃ m', netmsg_setdata m D D.length = some (0, m') ∧ m'.opcode = m.opcode
      ∧ m'.path = m.path ∧ m'.diskmsg = m.diskmsg
      ∧ m'.storage.bytes = o :: (htobe64 L.length ++ L ++ (htobe64 D.length ++ D)) := by
  have hmax := SSIZE_MAX_eq
  have hsome : labelSizeAt m.storage.bytes = some L.length := by
    rw [hS]; exact labelSizeAt_wf o L R (by omega)
  obtain ⟨m', h, ho, hp, hd, hbytes⟩ := setdata_spec m D D.length L.length hsome (le_refl _) hlen
  refine ⟨m', h, ho, hp, hd, ?_⟩
  have htake : m.storage.bytes.take (1 + 8 + L.length) = o :: (htobe64 L.length ++ L) := by
    rw [hS, show 1 + 8 + L.length = (htobe64 L.length ++ L).length + 1 by
      simp [htobe64_length]; omega, List.take_succ_cons, List.take_left]
  have hz : 1 + 8 + L.length - m.storage.bytes.length = 0 := by
    rw [hS]; simp [htobe64_length]; omega
  rw [hbytes, htake, hz]
  simp [Storage.zeros]

theorem isvalid_label_none (alloc : Nat → Bool) (m : netmsg)
    (hn : labelSizeAt m.storage.bytes = none) :
    ∃ m', isvalid_label alloc m = some (false, m') ∧ Same m m' := by
  obtain ⟨m1, h1, hs1⟩ := getclaimedlabelsize_spec m
  unfold isvalid_label
  rw [h1, hn]
  exact ⟨m1, rfl, hs1⟩

theorem isvalid_label_spec (alloc : Nat → Bool) (m : netmsg) (n : Nat)
    (hn : labelSizeAt m.storage.bytes = some n) (hsz : n + 1 ≤ SSIZE_MAX)
    (ha : alloc (n + 1) = true) :
    ∃ m', isvalid_label alloc m
        = some (decide (strlen ((m.storage.bytes.drop 9).take n ++ [0]) = n), m')
      ∧ Same m m' := by
  obtain ⟨m1, h1, hs1⟩ := getclaimedlabelsize_spec m
  obtain ⟨m2, h2, hs2⟩ := getlabel_spec alloc m1 n (by rw [hs1.2.1]; exact hn) hsz ha
  rw [hs1.2.1] at h2
  have hs := Same.trans_ hs1 hs2
  unfold isvalid_label
  rw [h1, hn]
  dsimp only
  rw [h2]
  dsimp only
  by_cases h : strlen ((m.storage.bytes.drop 9).take n ++ [0]) = n
  · rw [if_neg (by simpa using h)]
    simp only [h, decide_True]
    exact ⟨m2, rfl, hs⟩
  · rw [if_pos (by simpa using h)]
    simp only [h, decide_False]
    exact ⟨_, rfl, hs.1, hs.2.1, hs.2.2.1, hs.2.2.2⟩

theorem isvalid_data_none (alloc : Nat → Bool) (m : netmsg) (n : Nat)
    (hn : labelSizeAt m.storage.bytes = some n) (hoff : 1 + 8 + n ≤ SSIZE_MAX)
    (hd : dataSizeAt m.storage.bytes n = none) :
    ∃ m', isvalid_data alloc m = some (false, m') ∧ Same m m' := by
  obtain ⟨m1, h1, hs1⟩ := getclaimeddatasize_spec m n hn hoff
  unfold isvalid_data
  rw [h1, hd]
  exact ⟨m1, rfl, hs1⟩

theorem isvalid_data_spec (alloc : Nat → Bool) (m : netmsg) (n d : Nat)
    (hn : labelSizeAt m.storage.bytes = some n) (hd : dataSizeAt m.storage.bytes n = some d)
    (hoff : 1 + 8 + n + 8 ≤ SSIZE_MAX) (hsz : d ≤ SSIZE_MAX) (ha : alloc d = true) :
    ∃ m', isvalid_data alloc m
        = some (decide (((m.storage.bytes.drop (1 + 8 + n + 8)).take d).length = d), m')
      ∧ Same m m' := by
  have hmax := SSIZE_MAX_eq
  obtain ⟨m1, h1, hs1⟩ := getclaimeddatasize_spec m n hn (by omega)
  obtain ⟨m2, h2, hs2⟩ := getdata_spec alloc m1 n d (by rw [hs1.2.1]; exact hn)
    (by rw [hs1.2.1]; exact hd) hoff hsz ha
  rw [hs1.2.1] at h2
  have hs := Same.trans_ hs1 hs2
  unfold isvalid_data
  rw [h1, hd]
  dsimp only
  rw [h2]
  dsimp only
  by_cases h : ((m.storage.bytes.drop (1 + 8 + n + 8)).take d).length = d
  · rw [if_neg (by simpa using h)]
    simp only [h, decide_True]
    exact ⟨m2, rfl, hs⟩
  · rw [if_pos (by simpa using h)]
    simp only [h, decide_False]
    exact ⟨_, rfl, hs.1, hs.2.1, hs.2.2.1, hs.2.2.2⟩

theorem clearerror_same (m : netmsg) : Same m (netmsg_clearerror m) := ⟨rfl, rfl, rfl, rfl⟩

theorem expected_none (m : netmsg) (hn : labelSizeAt m.storage.bytes = none) :
    ∃ m', netmsg_getexpectedsizeifvalid m = some (1, m') ∧ Same m m' := by
  obtain ⟨m1, h1, hs1⟩ := getclaimedlabelsize_spec m
  obtain ⟨m2, h2, hs2⟩ := getclaimeddatasize_none m1 (by rw [hs1.2.1]; exact hn)
  unfold netmsg_getexpectedsizeifvalid
  dsimp only
  rw [h1, hn]
  dsimp only
  rw [h2]
  exact ⟨_, rfl, Same.trans_ (Same.trans_ hs1 hs2) (clearerror_same m2)⟩

theorem expected_label (m : netmsg) (n : Nat)
    (hn : labelSizeAt m.storage.bytes = some n) (hoff : 1 + 8 + n ≤ SSIZE_MAX)
    (hd : dataSizeAt m.storage.bytes n = none) :
    ∃ m', netmsg_getexpectedsizeifvalid m = some (((1 + 8 + n : Nat) : Int), m')
      ∧ Same m m' := by
  have hmax := SSIZE_MAX_eq
  obtain ⟨m1, h1, hs1⟩ := getclaimedlabelsize_spec m
  obtain ⟨m2, h2, hs2⟩ := getclaimeddatasize_spec m1 n (by rw [hs1.2.1]; exact hn) hoff
  rw [hs1.2.1, hd] at h2
  unfold netmsg_getexpectedsizeifvalid
  dsimp only
  rw [h1, hn]
  dsimp only
  rw [h2]
  dsimp only
  refine ⟨_, ?_, Same.trans_ (Same.trans_ hs1 hs2) (clearerror_same m2)⟩
  have e1 : ofSsize 1 = 1 := by unfold ofSsize; omega
  rw [e1, toSsize_of_lt n (by omega), ofSsize_natCast n (by omega),
    toSsize_of_lt _ (by omega)]
  congr 2
  omega

theorem expected_both (m : netmsg) (n d : Nat)
    (hn : labelSizeAt m.storage.bytes = some n)
    (hd : dataSizeAt m.storage.bytes n = some d)
    (hoff : 1 + 8 + n + 8 + d ≤ SSIZE_MAX) :
    ∃ m', netmsg_getexpectedsizeifvalid m = some (((1 + 8 + n + 8 + d : Nat) : Int), m')
      ∧ Same m m' := by
  have hmax := SSIZE_MAX_eq
  obtain ⟨m1, h1, hs1⟩ := getclaimedlabelsize_spec m
  obtain ⟨m2, h2, hs2⟩ := getclaimeddatasize_spec m1 n (by rw [hs1.2.1]; exact hn) (by omega)
  rw [hs1.2.1, hd] at h2
  unfold netmsg_getexpectedsizeifvalid
  dsimp only
  rw [h1, hn]
  dsimp only
  rw [h2]
  dsimp only
  refine ⟨_, ?_, Same.trans_ (Same.trans_ hs1 hs2) (clearerror_same m2)⟩
  have e1 : ofSsize 1 = 1 := by unfold ofSsize; omega
  rw [e1, toSsize_of_lt n (by omega), ofSsize_natCast n (by omega),
    toSsize_of_lt (1 + (n + 8)) (by omega), ofSsize_natCast _ (by omega),
    toSsize_of_lt d (by omega), ofSsize_natCast d (by omega), toSsize_of_lt _ (by omega)]
  congr 2
  omega

theorem getclaimeddatasize_congr (m m' : netmsg) (h : m'.storage.bytes = m.storage.bytes) :
    (netmsg_getclaimeddatasize m').map Prod.fst = (netmsg_getclaimeddatasize m).map Prod.fst := by
  obtain ⟨m1, h1, hs1⟩ := getclaimedlabelsize_spec m
  obtain ⟨m2, h2, hs2⟩ := getclaimedlabelsize_spec m'
  have hb1 := hs1.2.1
  have hb2 := hs2.2.1
  unfold netmsg_getclaimeddatasize
  rw [h1, h2, h]
  cases labelSizeAt m.storage.bytes with
  | none => rfl
  | some n =>
    dsimp only
    simp only [Storage.seek, Storage.read, hb1, hb2, h]
    by_cases c1 : 0 + toSsize (1 + 8 + n) < 0
    · simp only [if_pos c1]
    · simp only [if_neg c1]
      by_cases c2 : 0 + toSsize (1 + 8 + n) > (SSIZE_MAX : Int)
      · simp only [if_pos c2]
      · simp only [if_neg c2, if_neg (show ¬ (8 > SSIZE_MAX) by decide)]
        split <;> rfl

theorem expected_congr (m m' : netmsg) (h : m'.storage.bytes = m.storage.bytes) :
    (netmsg_getexpectedsizeifvalid m').map Prod.fst
      = (netmsg_getexpectedsizeifvalid m).map Prod.fst := by
  obtain ⟨m1, h1, hs1⟩ := getclaimedlabelsize_spec m
  obtain ⟨m2, h2, hs2⟩ := getclaimedlabelsize_spec m'
  have hc := getclaimeddatasize_congr m1 m2 (by rw [hs2.2.1, hs1.2.1, h])
  unfold netmsg_getexpectedsizeifvalid
  dsimp only
  rw [h1, h2, h]
  dsimp only
  cases hd1 : netmsg_getclaimeddatasize m1 with
  | none =>
    cases hd2 : netmsg_getclaimeddatasize m2 with
    | none => rfl
    | some r => rw [hd1, hd2] at hc; cases hc
  | some r1 =>
    cases hd2 : netmsg_getclaimeddatasize m2 with
    | none => rw [hd1, hd2] at hc; cases hc
    | some r2 =>
      rw [hd1, hd2] at hc
      simp only [Option.map_some', Option.some.injEq] at hc
      obtain ⟨a1, b1⟩ := r1
      obtain ⟨a2, b2⟩ := r2
      dsimp only at hc
      subst hc
      rfl

theorem getclaimeddatasize_same (m m' : netmsg) (r : Option Nat)
    (h : netmsg_getclaimeddatasize m = some (r, m')) : Same m m' := by
  obtain ⟨m1, h1, hs1⟩ := getclaimedlabelsize_spec m
  unfold netmsg_getclaimeddatasize at h
  rw [h1] at h
  cases hl : labelSizeAt m.storage.bytes with
  | none =>
    rw [hl] at h
    simp only [Option.some.injEq, Prod.mk.injEq] at h
    rw [← h.2]; exact hs1
  | some n =>
    rw [hl] at h
    dsimp only at h
    simp only [Storage.seek, Storage.read] at h
    by_cases c1 : 0 + toSsize (1 + 8 + n) < 0
    · simp only [if_pos c1] at h
      cases h
    · simp only [if_neg c1] at h
      by_cases c2 : 0 + toSsize (1 + 8 + n) > (SSIZE_MAX : Int)
      · simp only [if_pos c2] at h
        cases h
      · simp only [if_neg c2, if_neg (show ¬ (8 > SSIZE_MAX) by decide)] at h
        split at h
        · simp only [Option.some.injEq, Prod.mk.injEq] at h
          rw [← h.2]
          exact ⟨hs1.1, hs1.2.1, hs1.2.2.1, hs1.2.2.2⟩
        · simp only [Option.some.injEq, Prod.mk.injEq] at h
          rw [← h.2]
          exact ⟨hs1.1, hs1.2.1, hs1.2.2.1, hs1.2.2.2⟩

theorem expected_same (m m' : netmsg) (e : Int)
    (h : netmsg_getexpectedsizeifvalid m = some (e, m')) : Same m m' := by
  obtain ⟨m1, h1, hs1⟩ := getclaimedlabelsize_spec m
  unfold netmsg_getexpectedsizeifvalid at h
  dsimp only at h
  rw [h1] at h
  dsimp only at h
  cases hd : netmsg_getclaimeddatasize m1 with
  | none => rw [hd] at h; cases h
  | some r =>
    obtain ⟨r2, m2⟩ := r
    have hs2 := getclaimeddatasize_same m1 m2 r2 hd
    rw [hd] at h
    simp only [Option.some.injEq, Prod.mk.injEq] at h
    rw [← h.2]
    exact Same.trans_ (Same.trans_ hs1 hs2) (clearerror_same m2)

theorem isvalid_label_pass (alloc : Nat → Bool) (m : netmsg)
    (h : NulFreeLabelStored m.storage.bytes)
    (hlen : m.storage.bytes.length ≤ SSIZE_MAX)
    (ha : LabelBufferGranted alloc m.storage.bytes) :
    ∃ m', isvalid_label alloc m = some (true, m') ∧ Same m m' := by
  have hmax := SSIZE_MAX_eq
  obtain ⟨o, L, R, hS, hL⟩ := h
  have hl : 1 + 8 + L.length + R.length = m.storage.bytes.length := by
    rw [hS]; simp [htobe64_length]; omega
  have hsome : labelSizeAt m.storage.bytes = some L.length := by
    rw [hS]; exact labelSizeAt_wf o L R (by omega)
  obtain ⟨m', h, hs⟩ := isvalid_label_spec alloc m L.length hsome (by omega) (ha _ hsome)
  refine ⟨m', ?_, hs⟩
  rw [h, hS, List.append_assoc, label_bytes_frame _ _ _ _ (htobe64_length _), List.take_left]
  unfold strlen
  rw [cstr_append_nul L [] hL]
  simp

theorem isvalid_data_pass (alloc : Nat → Bool) (m : netmsg) (h : DataStored m.storage.bytes)
    (hlen : m.storage.bytes.length ≤ SSIZE_MAX)
    (ha : DataBufferGranted alloc m.storage.bytes) :
    ∃ m', isvalid_data alloc m = some (true, m') ∧ Same m m' := by
  have hmax := SSIZE_MAX_eq
  obtain ⟨o, L, D, X, hS⟩ := h
  have hl : 1 + 8 + L.length + 8 + D.length + X.length = m.storage.bytes.length := by
    rw [hS]; simp [htobe64_length]; omega
  have hsome : labelSizeAt m.storage.bytes = some L.length := by
    rw [hS]; exact labelSizeAt_wf o L _ (by omega)
  have hdsome : dataSizeAt m.storage.bytes L.length = some D.length := by
    rw [hS]; exact dataSizeAt_wf o L D X (by omega)
  obtain ⟨m', h, hs⟩ := isvalid_data_spec alloc m L.length D.length hsome hdsome (by omega)
    (by omega) (ha _ _ hsome hdsome)
  refine ⟨m', ?_, hs⟩
  rw [h, hS, List.append_assoc (htobe64 D.length),
    data_bytes_frame _ _ _ _ _ _ (htobe64_length _) (htobe64_length _), List.take_left]
  simp

theorem sections_verdict (alloc : Nat → Bool) (nl nd : Bool) (m me : netmsg) (e : Int)
    (hl : nl = true → NulFreeLabelStored m.storage.bytes)
    (hd : nd = true → DataStored m.storage.bytes)
    (hlen : m.storage.bytes.length ≤ SSIZE_MAX)
    (hla : nl = true → LabelBufferGranted alloc m.storage.bytes)
    (hda : nd = true → DataBufferGranted alloc m.storage.bytes)
    (he : netmsg_getexpectedsizeifvalid m = some (e, me)) :
    ∃ m', isvalid_sections alloc nl nd m
        = some (decide ((m.storage.bytes.length : Int) = e),
            decide ((m.storage.bytes.length : Int) ≠ e), m')
      ∧ Same m m' := by
  have h1 : ∃ m1, (if nl then isvalid_label alloc m else some (true, m)) = some (true, m1)
      ∧ Same m m1 := by
    cases nl with
    | false => exact ⟨m, rfl, Same.rfl_ m⟩
    | true => exact isvalid_label_pass alloc m (hl rfl) hlen (hla rfl)
  obtain ⟨m1, e1, hs1⟩ := h1
  have h2 : ∃ m2, (if nd then isvalid_data alloc m1 else some (true, m1)) = some (true, m2)
      ∧ Same m1 m2 := by
    cases nd with
    | false => exact ⟨m1, rfl, Same.rfl_ m1⟩
    | true =>
      exact isvalid_data_pass alloc m1 (by rw [hs1.2.1]; exact hd rfl)
        (by rw [hs1.2.1]; exact hlen) (by rw [hs1.2.1]; exact hda rfl)
  obtain ⟨m2, e2, hs2⟩ := h2
  have hs12 := Same.trans_ hs1 hs2
  have hc := expected_congr m m2 hs12.2.1
  rw [he] at hc
  cases h3 : netmsg_getexpectedsizeifvalid m2 with
  | none => rw [h3] at hc; cases hc
  | some r =>
    obtain ⟨e', m3⟩ := r
    rw [h3] at hc
    simp only [Option.map_some', Option.some.injEq] at hc
    subst hc
    have hs3 := expected_same m2 m3 e' h3
    have hs := Same.trans_ hs12 hs3
    unfold isvalid_sections
    rw [e1]
    dsimp only
    rw [e2]
    dsimp only
    rw [h3]
    dsimp only
    rw [seek_end _ (by rw [hs.2.1]; exact hlen), hs.2.1]
    dsimp only
    by_cases hq : (m.storage.bytes.length : Int) = e'
    · rw [if_neg (by simpa using hq)]
      simp only [hq, decide_True, ne_eq, not_true_eq_false, decide_False]
      exact ⟨_, rfl, hs.1, rfl, hs.2.2.1, hs.2.2.2⟩
    · rw [if_pos (by simpa using hq)]
      simp only [hq, decide_False, ne_eq, not_false_eq_true, decide_True]
      exact ⟨_, rfl, hs.1, rfl, hs.2.2.1, hs.2.2.2⟩

theorem verdict_of (alloc : Nat → Bool) (T : Opcodes) (m m' : netmsg) (v f : Bool)
    (h : netmsg_isvalid alloc T m = some (v, f, m')) : verdict alloc T m = some (v, f) := by
  unfold verdict; rw [h]; rfl

theorem needs_write (T : Opcodes) : needs T T.NETOP_WRITE = some (true, true) := by
  unfold needs; simp

theorem needs_bundle (T : Opcodes) : needs T T.NETOP_BUNDLE = some (true, true) := by
  unfold needs; simp

theorem distinct_facts (T : Opcodes) :
    T.NETOP_WRITE ≠ T.NETOP_BUNDLE ∧ T.NETOP_WRITE ≠ T.NETOP_SIGN
    ∧ T.NETOP_WRITE ≠ T.NETOP_HEARTBEAT ∧ T.NETOP_WRITE ≠ T.NETOP_ACK
    ∧ T.NETOP_WRITE ≠ T.NETOP_ERROR ∧ T.NETOP_BUNDLE ≠ T.NETOP_SIGN
    ∧ T.NETOP_BUNDLE ≠ T.NETOP_HEARTBEAT ∧ T.NETOP_BUNDLE ≠ T.NETOP_ACK
    ∧ T.NETOP_BUNDLE ≠ T.NETOP_ERROR ∧ T.NETOP_SIGN ≠ T.NETOP_ERROR
    ∧ T.NETOP_HEARTBEAT ≠ T.NETOP_ERROR ∧ T.NETOP_ACK ≠ T.NETOP_ERROR := by
  have hd := T.distinct
  simp only [List.nodup_cons, List.mem_cons, List.mem_singleton, not_or] at hd
  obtain ⟨⟨wb, ws, wh, wa, we⟩, ⟨bs, bh, ba, be⟩, ⟨sh, sa, se⟩, ⟨ha, he⟩, ae, _⟩ := hd
  exact ⟨wb, ws, wh, wa, we.1, bs, bh, ba, be.1, se.1, he.1, ae.1⟩

theorem needs_error (T : Opcodes) : needs T T.NETOP_ERROR = some (true, false) := by
  obtain ⟨_, _, _, _, we, _, _, _, be, _, _, _⟩ := distinct_facts T
  unfold needs
  simp [we.symm, be.symm]

theorem needs_plain (T : Opcodes) (o : Byte)
    (h : o = T.NETOP_SIGN ∨ o = T.NETOP_HEARTBEAT ∨ o = T.NETOP_ACK) :
    needs T o = some (false, false) := by
  obtain ⟨_, ws, wh, wa, _, bs, bh, ba, _, se, he, ae⟩ := distinct_facts T
  unfold needs
  rcases h with h | h | h <;> subst h
  · simp [ws.symm, bs.symm, se]
  · simp [wh.symm, bh.symm, he]
  · simp [wa.symm, ba.symm, ae]

theorem needs_of_legal (T : Opcodes) (o : Byte) (h : T.legal o = true) :
    ∃ nl nd, needs T o = some (nl, nd) := by
  unfold Opcodes.legal at h
  simp only [Bool.or_eq_true, beq_iff_eq] at h
  rcases h with ((((h | h) | h) | h) | h) | h
  · exact ⟨_, _, h ▸ needs_write T⟩
  · exact ⟨_, _, h ▸ needs_bundle T⟩
  · exact ⟨_, _, needs_plain T o (Or.inl h)⟩
  · exact ⟨_, _, needs_plain T o (Or.inr (Or.inl h))⟩
  · exact ⟨_, _, needs_plain T o (Or.inr (Or.inr h))⟩
  · exact ⟨_, _, h ▸ needs_error T⟩

theorem isvalid_empty (alloc : Nat → Bool) (T : Opcodes) (m : netmsg) (nl nd : Bool)
    (hneeds : needs T m.opcode = some (nl, nd)) (hS : m.storage.bytes = []) :
    ∃ m', netmsg_isvalid alloc T m = some (false, false, m') := by
  unfold netmsg_isvalid
  rw [hneeds]
  dsimp only
  rw [seek_set _ 0 (by omega) (by rw [SSIZE_MAX_eq]; omega)]
  dsimp only
  rw [read_ok _ 1 (by decide)]
  simp [hS]

theorem isvalid_mismatch (alloc : Nat → Bool) (T : Opcodes) (m : netmsg) (nl nd : Bool) (b : Byte)
    (rest : List Byte)
    (hneeds : needs T m.opcode = some (nl, nd)) (hS : m.storage.bytes = b :: rest)
    (hb : b ≠ m.opcode) :
    ∃ m', netmsg_isvalid alloc T m = some (false, true, m') := by
  unfold netmsg_isvalid
  rw [hneeds]
  dsimp only
  rw [seek_set _ 0 (by omega) (by rw [SSIZE_MAX_eq]; omega)]
  dsimp only
  rw [read_ok _ 1 (by decide)]
  simp [hS, hb]

theorem isvalid_opcode_ok (alloc : Nat → Bool) (T : Opcodes) (m : netmsg) (nl nd : Bool)
    (rest : List Byte)
    (hneeds : needs T m.opcode = some (nl, nd)) (hS : m.storage.bytes = m.opcode :: rest) :
    netmsg_isvalid alloc T m
      = isvalid_sections alloc nl nd { m with storage := ⟨m.storage.bytes, 1⟩ } := by
  unfold netmsg_isvalid
  rw [hneeds]
  dsimp only
  rw [seek_set _ 0 (by omega) (by rw [SSIZE_MAX_eq]; omega)]
  dsimp only
  rw [read_ok _ 1 (by decide)]
  simp [hS]

/-! ## The validator on stored frames -/

theorem expectedSize_some (m : netmsg) (e : Int) (h : expectedSize m = some e) :
    ∃ me, netmsg_getexpectedsizeifvalid m = some (e, me) := by
  unfold expectedSize at h
  cases hx : netmsg_getexpectedsizeifvalid m with
  | none => rw [hx] at h; cases h
  | some r =>
    obtain ⟨e', me⟩ := r
    rw [hx] at h
    simp only [Option.map_some', Option.some.injEq] at h
    subst h
    exact ⟨me, rfl⟩

theorem labelBufferGranted_of (alloc : Nat → Bool) (S : List Byte) (n : Nat)
    (hn : labelSizeAt S = some n) (ha : alloc (n + 1) = true) : LabelBufferGranted alloc S := by
  intro k hk
  have e : k = n := Option.some.inj (hk.symm.trans hn)
  rw [e]; exact ha

theorem dataBufferGranted_of (alloc : Nat → Bool) (S : List Byte) (n d : Nat)
    (hn : labelSizeAt S = some n) (hd : dataSizeAt S n = some d) (ha : alloc d = true) :
    DataBufferGranted alloc S := by
  intro k j hk hj
  have e : k = n := Option.some.inj (hk.symm.trans hn)
  rw [e] at hj
  have e2 : j = d := Option.some.inj (hj.symm.trans hd)
  rw [e2]; exact ha

theorem sections_label_fail (alloc : Nat → Bool) (nd : Bool) (m m1 : netmsg)
    (h : isvalid_label alloc m = some (false, m1)) :
    isvalid_sections alloc true nd m = some (false, false, m1) := by
  unfold isvalid_sections
  simp only [if_true, h]

theorem sections_data_fail (alloc : Nat → Bool) (nl : Bool) (m m1 m2 : netmsg)
    (h1 : (if nl then isvalid_label alloc m else some (true, m)) = some (true, m1))
    (h2 : isvalid_data alloc m1 = some (false, m2)) :
    isvalid_sections alloc nl true m = some (false, false, m2) := by
  unfold isvalid_sections
  rw [h1]
  simp only [if_true, h2]

theorem arriving_short (alloc : Nat → Bool) (T : Opcodes) (m : netmsg) (nd : Bool)
    (rest : List Byte)
    (hneeds : needs T m.opcode = some (true, nd))
    (hS : m.storage.bytes = m.opcode :: rest) (hshort : rest.length < 8) :
    verdict alloc T m = some (false, false) := by
  set m0 : netmsg := { m with storage := ⟨m.storage.bytes, 1⟩ } with hm0
  have hnone : labelSizeAt m0.storage.bytes = none := by
    rw [labelSizeAt_none_iff]
    show m.storage.bytes.length < 9
    rw [hS, List.length_cons]; omega
  obtain ⟨m1, h1, _⟩ := isvalid_label_none alloc m0 hnone
  exact verdict_of alloc T m m1 false false
    (by rw [isvalid_opcode_ok alloc T m true nd rest hneeds hS]
        exact sections_label_fail alloc nd m0 m1 h1)

theorem arriving_label (alloc : Nat → Bool) (T : Opcodes) (m : netmsg) (nd : Bool) (n : Nat)
    (P : List Byte)
    (hneeds : needs T m.opcode = some (true, nd))
    (hS : m.storage.bytes = m.opcode :: (htobe64 n ++ P))
    (hP : ∀ b ∈ P, b ≠ 0) (hshort : P.length < n) (hn : n + 1 ≤ SSIZE_MAX)
    (ha : alloc (n + 1) = true) :
    verdict alloc T m = some (false, false) := by
  have hmax := SSIZE_MAX_eq
  set m0 : netmsg := { m with storage := ⟨m.storage.bytes, 1⟩ } with hm0
  have hb0 : m0.storage.bytes = m.opcode :: (htobe64 n ++ P) := hS
  have hsome : labelSizeAt m0.storage.bytes = some n := by
    rw [hb0, labelSizeAt_frame _ _ _ (htobe64_length _), be64toh_htobe64 _ (by omega)]
  obtain ⟨m1, h1, _⟩ := isvalid_label_spec alloc m0 n hsome hn ha
  rw [hb0, label_bytes_frame _ _ _ _ (htobe64_length _),
    List.take_of_length_le (by omega)] at h1
  have hne : ¬ (strlen (P ++ [0]) = n) := by
    unfold strlen
    rw [cstr_append_nul P [] hP]
    omega
  simp only [hne, decide_False] at h1
  exact verdict_of alloc T m m1 false false
    (by rw [isvalid_opcode_ok alloc T m true nd _ hneeds hS]
        exact sections_label_fail alloc nd m0 m1 h1)

theorem arriving_datasize (alloc : Nat → Bool) (T : Opcodes) (m : netmsg) (L R : List Byte)
    (hneeds : needs T m.opcode = some (true, true))
    (hS : m.storage.bytes = m.opcode :: (htobe64 L.length ++ L ++ R))
    (hL : ∀ b ∈ L, b ≠ 0) (hshort : R.length < 8)
    (hlen : 1 + 8 + L.length + 8 ≤ SSIZE_MAX)
    (ha : alloc (L.length + 1) = true) :
    verdict alloc T m = some (false, false) := by
  have hmax := SSIZE_MAX_eq
  set m0 : netmsg := { m with storage := ⟨m.storage.bytes, 1⟩ } with hm0
  have hb0 : m0.storage.bytes = m.opcode :: (htobe64 L.length ++ L ++ R) := hS
  have hl0 : m0.storage.bytes.length ≤ SSIZE_MAX := by
    rw [hb0]; simp [htobe64_length]; omega
  obtain ⟨m1, h1, hs1⟩ := isvalid_label_pass alloc m0 ⟨_, L, R, hb0, hL⟩ hl0
    (labelBufferGranted_of alloc _ L.length
      (by rw [hb0]; exact labelSizeAt_wf _ L R (by omega)) ha)
  have hb1 : m1.storage.bytes = m.opcode :: (htobe64 L.length ++ L ++ R) := by
    rw [hs1.2.1, hb0]
  obtain ⟨m2, h2, _⟩ := isvalid_data_none alloc m1 L.length
    (by rw [hb1]; exact labelSizeAt_wf _ L R (by omega)) (by omega)
    (by rw [hb1]; exact dataSizeAt_short _ _ L R (htobe64_length _) hshort)
  exact verdict_of alloc T m m2 false false
    (by rw [isvalid_opcode_ok alloc T m true true _ hneeds hS]
        exact sections_data_fail alloc true m0 m1 m2 (by simpa using h1) h2)

theorem arriving_data (alloc : Nat → Bool) (T : Opcodes) (m : netmsg) (L Q : List Byte) (d : Nat)
    (hneeds : needs T m.opcode = some (true, true))
    (hS : m.storage.bytes = m.opcode :: (htobe64 L.length ++ L ++ (htobe64 d ++ Q)))
    (hL : ∀ b ∈ L, b ≠ 0) (hshort : Q.length < d)
    (hlen : 1 + 8 + L.length + 8 + d ≤ SSIZE_MAX)
    (haL : alloc (L.length + 1) = true) (haD : alloc d = true) :
    verdict alloc T m = some (false, false) := by
  have hmax := SSIZE_MAX_eq
  set m0 : netmsg := { m with storage := ⟨m.storage.bytes, 1⟩ } with hm0
  have hb0 : m0.storage.bytes = m.opcode :: (htobe64 L.length ++ L ++ (htobe64 d ++ Q)) := hS
  have hl0 : m0.storage.bytes.length ≤ SSIZE_MAX := by
    rw [hb0]; simp [htobe64_length]; omega
  obtain ⟨m1, h1, hs1⟩ := isvalid_label_pass alloc m0 ⟨_, L, _, hb0, hL⟩ hl0
    (labelBufferGranted_of alloc _ L.length
      (by rw [hb0]; exact labelSizeAt_wf _ L _ (by omega)) haL)
  have hb1 : m1.storage.bytes = m.opcode :: (htobe64 L.length ++ L ++ (htobe64 d ++ Q)) := by
    rw [hs1.2.1, hb0]
  obtain ⟨m2, h2, _⟩ := isvalid_data_spec alloc m1 L.length d
    (by rw [hb1]; exact labelSizeAt_wf _ L _ (by omega))
    (by rw [hb1, dataSizeAt_frame _ _ _ _ _ (htobe64_length _) (htobe64_length _),
          be64toh_htobe64 _ (by omega)])
    (by omega) (by omega) haD
  rw [hb1, data_bytes_frame _ _ _ _ _ _ (htobe64_length _) (htobe64_length _),
    List.take_of_length_le (by omega)] at h2
  have hne : ¬ (Q.length = d) := by omega
  simp only [hne, decide_False] at h2
  exact verdict_of alloc T m m2 false false
    (by rw [isvalid_opcode_ok alloc T m true true _ hneeds hS]
        exact sections_data_fail alloc true m0 m1 m2 (by simpa using h1) h2)

theorem getlabel_refused (alloc : Nat → Bool) (m : netmsg) (n : Nat)
    (hn : labelSizeAt m.storage.bytes = some n) (hsz : n + 1 < 2 ^ 64)
    (ha : alloc (n + 1) = false) : netmsg_getlabel alloc m = none := by
  obtain ⟨m1, h1, hs1⟩ := getclaimedlabelsize_spec m
  unfold netmsg_getlabel
  dsimp only
  rw [h1, hn]
  dsimp only
  rw [seek_set _ _ (by omega) (by rw [SSIZE_MAX_eq]; omega)]
  dsimp only
  have hr : reallocarray alloc (toU64 (n + 1)) 1 = false := by
    unfold reallocarray toU64
    rw [Nat.mod_eq_of_lt hsz, Nat.mul_one, ha]
    simp
  rw [hr]
  rfl

theorem isvalid_label_refused (alloc : Nat → Bool) (m : netmsg) (n : Nat)
    (hn : labelSizeAt m.storage.bytes = some n) (hsz : n + 1 < 2 ^ 64)
    (ha : alloc (n + 1) = false) : isvalid_label alloc m = none := by
  obtain ⟨m1, h1, hs1⟩ := getclaimedlabelsize_spec m
  have h2 := getlabel_refused alloc m1 n (by rw [hs1.2.1]; exact hn) hsz ha
  unfold isvalid_label
  rw [h1, hn]
  dsimp only
  rw [h2]

theorem sections_label_refused (alloc : Nat → Bool) (nd : Bool) (m : netmsg)
    (h : isvalid_label alloc m = none) : isvalid_sections alloc true nd m = none := by
  unfold isvalid_sections
  simp only [if_true, h]

theorem arriving_refused (alloc : Nat → Bool) (T : Opcodes) (m : netmsg) (nd : Bool) (n : Nat)
    (P : List Byte)
    (hneeds : needs T m.opcode = some (true, nd))
    (hS : m.storage.bytes = m.opcode :: (htobe64 n ++ P))
    (hsz : n + 1 < 2 ^ 64) (ha : alloc (n + 1) = false) :
    verdict alloc T m = none := by
  set m0 : netmsg := { m with storage := ⟨m.storage.bytes, 1⟩ } with hm0
  have hb0 : m0.storage.bytes = m.opcode :: (htobe64 n ++ P) := hS
  have hsome : labelSizeAt m0.storage.bytes = some n := by
    rw [hb0, labelSizeAt_frame _ _ _ (htobe64_length _), be64toh_htobe64 _ (by omega)]
  have h1 := isvalid_label_refused alloc m0 n hsome hsz ha
  unfold verdict
  rw [isvalid_opcode_ok alloc T m true nd _ hneeds hS, sections_label_refused alloc nd m0 h1]
  rfl

theorem getdata_refused (alloc : Nat → Bool) (m : netmsg) (n d : Nat)
    (hn : labelSizeAt m.storage.bytes = some n) (hd : dataSizeAt m.storage.bytes n = some d)
    (hoff : 1 + 8 + n + 8 ≤ SSIZE_MAX) (ha : alloc d = false) :
    netmsg_getdata alloc m = none := by
  obtain ⟨m1, h1, hs1⟩ := getclaimedlabelsize_spec m
  obtain ⟨m2, h2, hs2⟩ := getclaimeddatasize_spec m1 n (by rw [hs1.2.1]; exact hn)
    (by rw [SSIZE_MAX_eq] at hoff ⊢; omega)
  rw [hs1.2.1, hd] at h2
  rw [SSIZE_MAX_eq] at hoff
  unfold netmsg_getdata
  rw [h1, hn]
  dsimp only
  rw [h2]
  dsimp only
  rw [toSsize_of_lt _ (by omega), seek_set _ _ (by omega) (by rw [SSIZE_MAX_eq]; omega)]
  dsimp only
  have hr : reallocarray alloc d 1 = false := by
    unfold reallocarray
    rw [Nat.mul_one, ha]
    simp
  rw [hr]
  rfl

theorem getdata_oversized (alloc : Nat → Bool) (m : netmsg) (n d : Nat)
    (hn : labelSizeAt m.storage.bytes = some n) (hd : dataSizeAt m.storage.bytes n = some d)
    (hoff : 1 + 8 + n + 8 ≤ SSIZE_MAX) (hbig : SSIZE_MAX < d) :
    netmsg_getdata alloc m = none := by
  obtain ⟨m1, h1, hs1⟩ := getclaimedlabelsize_spec m
  obtain ⟨m2, h2, hs2⟩ := getclaimeddatasize_spec m1 n (by rw [hs1.2.1]; exact hn)
    (by rw [SSIZE_MAX_eq] at hoff ⊢; omega)
  rw [hs1.2.1, hd] at h2
  rw [SSIZE_MAX_eq] at hoff
  unfold netmsg_getdata
  rw [h1, hn]
  dsimp only
  rw [h2]
  dsimp only
  rw [toSsize_of_lt _ (by omega), seek_set _ _ (by omega) (by rw [SSIZE_MAX_eq]; omega)]
  dsimp only
  cases hr : reallocarray alloc d 1 with
  | false => rfl
  | true =>
    simp only [Bool.not_true, Bool.false_eq_true, if_false]
    unfold Storage.read
    rw [if_pos hbig]

theorem replicate_one_nulfree (n : Nat) : ∀ b ∈ List.replicate n (1 : Byte), b ≠ 0 := by
  intro b hb
  rw [List.eq_of_mem_replicate hb]
  decide

theorem allocUpTo_refuses (limit n : Nat) (h : limit < n) : allocUpTo limit n = false := by
  unfold allocUpTo
  simp only [decide_eq_false_iff_not]
  omega

theorem nulfree_take (L : List Byte) (j : Nat) (hL : ∀ b ∈ L, b ≠ 0) :
    ∀ b ∈ L.take j, b ≠ 0 := fun b hb => hL b (List.mem_of_mem_take hb)

theorem take_in_second (A B : List Byte) (j : Nat) (h : A.length ≤ j) :
    (A ++ B).take j = A ++ B.take (j - A.length) := by
  rw [List.take_append_eq_append_take, List.take_of_length_le h]

theorem take_in_first (A B : List Byte) (j : Nat) (h : j ≤ A.length) :
    (A ++ B).take j = A.take j := by
  rw [List.take_append_eq_append_take, show j - A.length = 0 by omega]
  simp

theorem frameOf_label_prefix (T : Opcodes) (o : Byte) (L D : List Byte) (nd : Bool)
    (hneeds : needs T o = some (true, nd)) :
    (frameOf T o L D).take 9 = o :: htobe64 L.length
      ∧ 9 + L.length ≤ (frameOf T o L D).length := by
  have hF : ∃ R, frameOf T o L D = o :: (htobe64 L.length ++ (L ++ R)) := by
    unfold frameOf
    rw [hneeds]
    cases nd with
    | false => exact ⟨[], by simp⟩
    | true => exact ⟨htobe64 D.length ++ D, by simp⟩
  obtain ⟨R, hF⟩ := hF
  rw [hF]
  constructor
  · rw [List.take_succ_cons, take_in_first _ _ _ (by rw [htobe64_length]),
      List.take_of_length_le (by rw [htobe64_length])]
  · simp only [List.length_cons, List.length_append, htobe64_length]
    omega

theorem plain_verdict (alloc : Nat → Bool) (T : Opcodes) (o : Byte) (rest : List Byte) (e : Int)
    (me : netmsg)
    (ho : o = T.NETOP_SIGN ∨ o = T.NETOP_HEARTBEAT ∨ o = T.NETOP_ACK)
    (hlen : (o :: rest).length ≤ SSIZE_MAX)
    (he : netmsg_getexpectedsizeifvalid
      { received o (o :: rest) with storage := ⟨o :: rest, 1⟩ } = some (e, me)) :
    verdict alloc T (received o (o :: rest))
      = some (decide ((((o :: rest).length : Nat) : Int) = e),
          decide ((((o :: rest).length : Nat) : Int) ≠ e)) := by
  have hneeds : needs T (received o (o :: rest)).opcode = some (false, false) :=
    needs_plain T o ho
  obtain ⟨m', hv, _⟩ := sections_verdict alloc false false
    { received o (o :: rest) with storage := ⟨o :: rest, 1⟩ } me e (fun h => by cases h)
    (fun h => by cases h) hlen (fun h => by cases h) (fun h => by cases h) he
  exact verdict_of alloc T _ m' _ _
    (by rw [isvalid_opcode_ok alloc T (received o (o :: rest)) false false rest hneeds rfl]
        exact hv)

/-! ## The claims on the codec and the validator -/

/-! ### C1: Relabelling preserves the payload -/

/-- Claim C4, counterexample: the 27-byte WRITE message with label "obj42" and
data "hello", truncated to 20 bytes, has expected total size 14 and stored
length 20, and `isValid` returns `(false, false)`, not `(false, true)`. -/
theorem truncated_frame_not_fatal :
    ∃ m1 m2, netmsg_setlabel sampleAlloc freshWrite obj42 = some (0, m1)
      ∧ netmsg_setdata m1 hello 5 = some (0, m2)
      ∧ m2.storage.bytes = scenarioB
      ∧ (netmsg_truncate m2 20).1 = 0
      ∧ (netmsg_truncate m2 20).2.storage.bytes.length = 20
      ∧ expectedSize (netmsg_truncate m2 20).2 = some 14
      ∧ verdict sampleAlloc sampleOps (netmsg_truncate m2 20).2 = some (false, false) := by
  refine ⟨_, _, rfl, rfl, ?_⟩
  decide

/-- Claim C4, amended: `isValid` returns `(false, true)` whenever byte 0 of the
storage is the recorded opcode, the label section, when the opcode requires a
label, is completely stored and its label holds no NUL byte, the data section,
when the opcode requires data, is completely stored, the allocator grants the
buffers the validator asks for (the claimed label size plus one byte, and the
claimed data size), the storage holds at most `SSIZE_MAX` bytes, and the
expected total size disagrees with the stored length. -/
theorem size_mismatch_fatal (alloc : Nat → Bool) (T : Opcodes) (m : netmsg) (nl nd : Bool)
    (rest : List Byte) (e : Int)
    (hneeds : needs T m.opcode = some (nl, nd))
    (hop : m.storage.bytes = m.opcode :: rest)
    (hl : nl = true → NulFreeLabelStored m.storage.bytes)
    (hd : nd = true → DataStored m.storage.bytes)
    (hla : nl = true → LabelBufferGranted alloc m.storage.bytes)
    (hda : nd = true → DataBufferGranted alloc m.storage.bytes)
    (hlen : m.storage.bytes.length ≤ SSIZE_MAX)
    (he : expectedSize m = some e)
    (hne : e ≠ (m.storage.bytes.length : Int)) :
    verdict alloc T m = some (false, true) := by
  obtain ⟨me, he'⟩ := expectedSize_some m e he
  set m0 : netmsg := { m with storage := ⟨m.storage.bytes, 1⟩ } with hm0
  have hc := expected_congr m m0 rfl
  rw [he'] at hc
  cases h0 : netmsg_getexpectedsizeifvalid m0 with
  | none => rw [h0] at hc; cases hc
  | some r =>
    obtain ⟨e0, me0⟩ := r
    rw [h0] at hc
    simp only [Option.map_some', Option.some.injEq] at hc
    subst hc
    obtain ⟨m', hv, _⟩ := sections_verdict alloc nl nd m0 me0 _ hl hd hlen hla hda h0
    have hq : ¬ ((m0.storage.bytes.length : Int) = e0) := fun h => hne h.symm
    simp only [hq, decide_False, ne_eq, not_false_eq_true, decide_True] at hv
    exact verdict_of alloc T m m' false true
      (by rw [isvalid_opcode_ok alloc T m nl nd rest hneeds hop]; exact hv)

theorem size_mismatch_fatal_witness :
    expectedSize (received 1 (scenarioB ++ [0])) = some 27
      ∧ (received 1 (scenarioB ++ [0])).storage.bytes.length = 28
      ∧ verdict sampleAlloc sampleOps (received 1 (scenarioB ++ [0])) = some (false, true) :=
  ⟨by decide, by decide,
    size_mismatch_fatal sampleAlloc sampleOps (received 1 (scenarioB ++ [0])) true true
      (scenarioB.tail ++ [0]) 27 (by decide) (by decide)
      (fun _ => ⟨1, obj42, htobe64 5 ++ hello ++ [0], by decide, by simp [obj42]⟩)
      (fun _ => ⟨1, obj42, hello, [0], by decide⟩)
      (fun _ => labelBufferGranted_of sampleAlloc _ 5 (by decide) (by rfl))
      (fun _ => dataBufferGranted_of sampleAlloc _ 5 5 (by decide) (by decide) (by rfl))
      (by decide) (by decide) (by decide)⟩

/-! ### C5: Opcode check -/

/-- Claim C5: for a message with a legal recorded opcode, `isValid` returns
`(false, false)` when the storage is empty, and `(false, true)` when byte 0 of
the storage differs from the recorded opcode, whatever bytes follow it. -/
theorem opcode_check (alloc : Nat → Bool) (T : Opcodes) (m : netmsg)
    (hlegal : T.legal m.opcode = true) :
    (m.storage.bytes = [] → verdict alloc T m = some (false, false))
      ∧ (∀ b rest, m.storage.bytes = b :: rest → b ≠ m.opcode
          → verdict alloc T m = some (false, true)) := by
  obtain ⟨nl, nd, hneeds⟩ := needs_of_legal T m.opcode hlegal
  constructor
  · intro hS
    obtain ⟨m', h⟩ := isvalid_empty alloc T m nl nd hneeds hS
    exact verdict_of alloc T m m' false false h
  · intro b rest hS hb
    obtain ⟨m', h⟩ := isvalid_mismatch alloc T m nl nd b rest hneeds hS hb
    exact verdict_of alloc T m m' false true h

theorem opcode_check_witness :
    sampleOps.legal 1 = true
      ∧ verdict sampleAlloc sampleOps (received 1 []) = some (false, false)
      ∧ verdict sampleAlloc sampleOps (received 1 (6 :: scenarioB.tail)) = some (false, true) :=
  ⟨rfl, (opcode_check sampleAlloc sampleOps (received 1 []) rfl).1 rfl,
    (opcode_check sampleAlloc sampleOps (received 1 (6 :: scenarioB.tail)) rfl).2 6
      scenarioB.tail rfl (by decide)⟩

/-! ### C6: A frame still arriving -/

/-- Claim C6, counterexample: the label of 2^48 bytes of value 1 is NUL-free
and the nine bytes `[1] ++ be64(2^48)` are a proper initial segment of its
WRITE frame, yet under an allocator that refuses `2^48 + 1` bytes `isValid` on
a WRITE message that holds these nine bytes does not return `(false, false)`:
the process is terminated in `netmsg_getlabel`. -/
theorem arriving_frame_allocation_abort :
    (∀ b ∈ List.replicate (2 ^ 48) (1 : Byte), b ≠ 0)
      ∧ (frameOf sampleOps 1 (List.replicate (2 ^ 48) 1) []).take 9 = 1 :: htobe64 (2 ^ 48)
      ∧ 9 < (frameOf sampleOps 1 (List.replicate (2 ^ 48) 1) []).length
      ∧ sampleAlloc (2 ^ 48 + 1) = false
      ∧ verdict sampleAlloc sampleOps (received 1 (1 :: htobe64 (2 ^ 48))) = none := by
  have hlen := List.length_replicate (2 ^ 48) (1 : Byte)
  have hp := frameOf_label_prefix sampleOps 1 (List.replicate (2 ^ 48) 1) [] true
    (needs_write sampleOps)
  rw [hlen] at hp
  refine ⟨fun b hb => replicate_one_nulfree _ b hb, hp.1, by omega, ?_, ?_⟩
  · exact allocUpTo_refuses _ _ (by omega)
  · exact arriving_refused sampleAlloc sampleOps (received 1 (1 :: htobe64 (2 ^ 48))) true
      (2 ^ 48) [] (needs_write sampleOps) (congrArg (List.cons 1) (List.append_nil _).symm)
      (by omega) (allocUpTo_refuses _ _ (by omega))

/-- Claim C6, amended: for an opcode that requires a label (WRITE, BUNDLE,
ERROR), a NUL-free label `L` and data `D` such that the allocator grants a
buffer of `|L| + 1` bytes and, when the opcode requires data, a buffer of
`|D|` bytes, a message whose storage is a proper initial segment of the
well-formed frame gets `isValid = (false, false)`. -/
theorem arriving_frame_not_fatal (alloc : Nat → Bool) (T : Opcodes) (m : netmsg)
    (L D : List Byte) (k : Nat)
    (hop : m.opcode = T.NETOP_WRITE ∨ m.opcode = T.NETOP_BUNDLE ∨ m.opcode = T.NETOP_ERROR)
    (hL : ∀ b ∈ L, b ≠ 0)
    (hlen : (frameOf T m.opcode L D).length ≤ SSIZE_MAX)
    (hlabel : alloc (L.length + 1) = true)
    (hdata : m.opcode ≠ T.NETOP_ERROR → alloc D.length = true)
    (hk : k < (frameOf T m.opcode L D).length)
    (hS : m.storage.bytes = (frameOf T m.opcode L D).take k) :
    verdict alloc T m = some (false, false) := by
  have hmax := SSIZE_MAX_eq
  have hneeds : ∃ nd, needs T m.opcode = some (true, nd) := by
    rcases hop with h | h | h <;> rw [h]
    · exact ⟨_, needs_write T⟩
    · exact ⟨_, needs_bundle T⟩
    · exact ⟨_, needs_error T⟩
  obtain ⟨nd, hneeds⟩ := hneeds
  have hF : ∃ R, frameOf T m.opcode L D = m.opcode :: (htobe64 L.length ++ L ++ R)
      ∧ (nd = false → R = []) ∧ (nd = true → R = htobe64 D.length ++ D) := by
    unfold frameOf
    rw [hneeds]
    cases nd with
    | false => exact ⟨[], by simp, fun _ => rfl, fun h => (by cases h)⟩
    | true => exact ⟨_, rfl, fun h => (by cases h), fun _ => rfl⟩
  obtain ⟨R, hF, hR0, hR1⟩ := hF
  rw [hF] at hS hk hlen
  simp only [List.length_cons, List.length_append, htobe64_length] at hk hlen
  cases k with
  | zero =>
    obtain ⟨m', h⟩ := isvalid_empty alloc T m true nd hneeds (by rw [hS]; rfl)
    exact verdict_of alloc T m m' false false h
  | succ j =>
    rw [List.take_succ_cons] at hS
    by_cases hj8 : j < 8
    · exact arriving_short alloc T m nd _ hneeds hS (by rw [List.length_take]; omega)
    · by_cases hjL : j < 8 + L.length
      · rw [take_in_first _ _ _ (by simp [htobe64_length]; omega),
          take_in_second _ _ _ (by simp [htobe64_length]; omega), htobe64_length] at hS
        exact arriving_label alloc T m nd L.length _ hneeds hS (nulfree_take L _ hL)
          (by rw [List.length_take]; omega) (by omega) hlabel
      · rw [take_in_second _ _ _ (by simp [htobe64_length]; omega)] at hS
        simp only [List.length_append, htobe64_length] at hS
        cases nd with
        | false =>
          have := hR0 rfl
          subst this
          simp only [List.length_nil] at hk
          omega
        | true =>
          have := hR1 rfl
          subst this
          simp only [List.length_append, htobe64_length] at hk hlen
          have hnoterr : m.opcode ≠ T.NETOP_ERROR := by
            intro h
            rw [h, needs_error T] at hneeds
            cases hneeds
          by_cases hi8 : j - (8 + L.length) < 8
          · exact arriving_datasize alloc T m L _ hneeds hS hL (by rw [List.length_take]; omega)
              (by omega) hlabel
          · rw [take_in_second _ _ _ (by simp [htobe64_length]; omega), htobe64_length] at hS
            exact arriving_data alloc T m L _ D.length hneeds hS hL
              (by rw [List.length_take]; omega) (by omega) hlabel (hdata hnoterr)

theorem arriving_frame_not_fatal_witness :
    verdict sampleAlloc sampleOps (received 1 [1, 0, 0, 0, 0, 0, 0, 0, 5, 111, 98])
      = some (false, false) :=
  arriving_frame_not_fatal sampleAlloc sampleOps
    (received 1 [1, 0, 0, 0, 0, 0, 0, 0, 5, 111, 98]) obj42 hello 11 (Or.inl rfl)
    (by simp [obj42]) (by decide) (by rfl) (fun _ => by rfl) (by decide) (by decide)

/-! ### C7: A freshly constructed message -/

/-- Claim C7: the message `netmsg_new` returns holds exactly one byte, and
`isValid` on it is never fatal: it returns `(true, false)` for SIGN,
HEARTBEAT and ACK, and `(false, false)` for WRITE, BUNDLE and ERROR. -/
theorem fresh_message_validity (alloc : Nat → Bool) (T : Opcodes) (MESSAGES : String)
    (openok : Bool)
    (a a' : Allocator) (opcode : Byte) (m : netmsg)
    (hnew : netmsg_new T MESSAGES openok a opcode = some (some m, a')) :
    m.storage.bytes.length = 1
      ∧ netmsg_seek m 0 .SEEK_END = (1, { m with storage := ⟨m.storage.bytes, 1⟩ })
      ∧ (∃ v, verdict alloc T m = some (v, false))
      ∧ (opcode = T.NETOP_SIGN ∨ opcode = T.NETOP_HEARTBEAT ∨ opcode = T.NETOP_ACK
          → verdict alloc T m = some (true, false))
      ∧ (opcode = T.NETOP_WRITE ∨ opcode = T.NETOP_BUNDLE ∨ opcode = T.NETOP_ERROR
          → verdict alloc T m = some (false, false)) := by
  obtain ⟨hlegal, hopc, hst⟩ := new_spec T MESSAGES openok a a' opcode m hnew
  have hS : m.storage.bytes = m.opcode :: [] := by rw [hst, hopc]
  have hplain : opcode = T.NETOP_SIGN ∨ opcode = T.NETOP_HEARTBEAT ∨ opcode = T.NETOP_ACK
      → verdict alloc T m = some (true, false) := by
    intro h
    have hneeds : needs T m.opcode = some (false, false) := by
      rw [hopc]; exact needs_plain T opcode h
    set m0 : netmsg := { m with storage := ⟨m.storage.bytes, 1⟩ } with hm0
    have hb0 : m0.storage.bytes = [m.opcode] := hS
    obtain ⟨me, he, _⟩ := expected_none m0 (by rw [labelSizeAt_none_iff, hb0]; simp)
    obtain ⟨m', hv, _⟩ := sections_verdict alloc false false m0 me 1 (fun h => by cases h)
      (fun h => by cases h) (by rw [hb0, SSIZE_MAX_eq]; simp) (fun h => by cases h)
      (fun h => by cases h) he
    rw [hb0] at hv
    simp only [List.length_singleton, Nat.cast_one, decide_True, ne_eq, not_true_eq_false,
      decide_False] at hv
    exact verdict_of alloc T m m' true false
      (by rw [isvalid_opcode_ok alloc T m false false [] hneeds hS]; exact hv)
  have hlabel : opcode = T.NETOP_WRITE ∨ opcode = T.NETOP_BUNDLE ∨ opcode = T.NETOP_ERROR
      → verdict alloc T m = some (false, false) := by
    intro h
    have hneeds : ∃ nd, needs T m.opcode = some (true, nd) := by
      rw [hopc]
      rcases h with h | h | h <;> rw [h]
      · exact ⟨_, needs_write T⟩
      · exact ⟨_, needs_bundle T⟩
      · exact ⟨_, needs_error T⟩
    obtain ⟨nd, hneeds⟩ := hneeds
    exact arriving_short alloc T m nd [] hneeds hS (by simp)
  refine ⟨by rw [hst]; rfl, ?_, ?_, hplain, hlabel⟩
  · unfold netmsg_seek
    rw [seek_end _ (by rw [hst, SSIZE_MAX_eq]; simp), hst]
    rfl
  · unfold Opcodes.legal at hlegal
    simp only [Bool.or_eq_true, beq_iff_eq] at hlegal
    rcases hlegal with ((((h | h) | h) | h) | h) | h
    · exact ⟨_, hlabel (Or.inl h)⟩
    · exact ⟨_, hlabel (Or.inr (Or.inl h))⟩
    · exact ⟨_, hplain (Or.inl h)⟩
    · exact ⟨_, hplain (Or.inr (Or.inl h))⟩
    · exact ⟨_, hplain (Or.inr (Or.inr h))⟩
    · exact ⟨_, hlabel (Or.inr (Or.inr h))⟩

theorem fresh_message_validity_witness :
    netmsg_new sampleOps "messages" true freshAllocator 5 = some (some freshAck, freshAllocator)
      ∧ freshAck.storage.bytes.length = 1
      ∧ verdict sampleAlloc sampleOps freshAck = some (true, false) :=
  ⟨by rfl,
    (fresh_message_validity sampleAlloc sampleOps "messages" true freshAllocator freshAllocator 5
      freshAck (by rfl)).1,
    (fresh_message_validity sampleAlloc sampleOps "messages" true freshAllocator freshAllocator 5
      freshAck (by rfl)).2.2.2.1 (Or.inr (Or.inr rfl))⟩

/-! ### C8: Permanence of the fatal flag -/

/-- Claim C8, the code at the failing input: for every opcode table, an ACK
message whose storage is the opcode byte and one zero byte gets
`isValid = (false, true)`, and the same message after seven more zero bytes
were appended gets `isValid = (true, false)`. -/
theorem fatal_frame_becomes_valid (alloc : Nat → Bool) (T : Opcodes) :
    verdict alloc T (received T.NETOP_ACK [T.NETOP_ACK, 0]) = some (false, true)
      ∧ verdict alloc T (received T.NETOP_ACK ([T.NETOP_ACK, 0] ++ [0, 0, 0, 0, 0, 0, 0]))
          = some (true, false) := by
  constructor
  · obtain ⟨me, he, _⟩ := expected_none
      { received T.NETOP_ACK [T.NETOP_ACK, 0] with storage := ⟨[T.NETOP_ACK, 0], 1⟩ }
      (by rw [labelSizeAt_none_iff]; simp)
    have := plain_verdict alloc T T.NETOP_ACK [0] 1 me (Or.inr (Or.inr rfl))
      (by rw [SSIZE_MAX_eq]; simp) he
    simpa using this
  · have hS : ([T.NETOP_ACK, 0] ++ [0, 0, 0, 0, 0, 0, 0] : List Byte)
        = T.NETOP_ACK :: (htobe64 0 ++ []) := rfl
    rw [hS]
    obtain ⟨me, he, _⟩ := expected_label
      { received T.NETOP_ACK (T.NETOP_ACK :: (htobe64 0 ++ []))
        with storage := ⟨T.NETOP_ACK :: (htobe64 0 ++ []), 1⟩ } 0
      (by
        show labelSizeAt (T.NETOP_ACK :: (htobe64 0 ++ [])) = some 0
        rw [labelSizeAt_frame _ _ _ (htobe64_length _)]; rfl)
      (by decide)
      (by
        show dataSizeAt (T.NETOP_ACK :: (htobe64 0 ++ [])) 0 = none
        unfold dataSizeAt
        rw [if_neg (by simp [htobe64_length])])
    have := plain_verdict alloc T T.NETOP_ACK (htobe64 0 ++ []) _ me (Or.inr (Or.inr rfl))
      (by rw [SSIZE_MAX_eq]; simp [htobe64_length]) he
    simpa [htobe64_length] using this

/-! ### C9: Non-fatal rejections -/

/-- Claim C9, the code at the failing input: for every opcode table, a WRITE
message whose storage claims a label of one byte and holds a NUL as that byte
gets `isValid = (false, false)`, whatever bytes `X` follow: no appended bytes
make it valid.  This is the answer when the allocator grants the two bytes of
the label copy; when it refuses them the process is terminated. -/
theorem nul_label_never_valid (alloc : Nat → Bool) (T : Opcodes) (X : List Byte) :
    verdict alloc T (received T.NETOP_WRITE (T.NETOP_WRITE :: (htobe64 1 ++ 0 :: X)))
      = if alloc 2 = true then some (false, false) else none := by
  set S : List Byte := T.NETOP_WRITE :: (htobe64 1 ++ 0 :: X) with hSdef
  have hneeds : needs T (received T.NETOP_WRITE S).opcode = some (true, true) := needs_write T
  by_cases ha : alloc 2 = true
  · rw [if_pos ha]
    set m0 : netmsg := { received T.NETOP_WRITE S with storage := ⟨S, 1⟩ } with hm0
    have hsome : labelSizeAt m0.storage.bytes = some 1 := by
      show labelSizeAt (T.NETOP_WRITE :: (htobe64 1 ++ 0 :: X)) = some 1
      rw [labelSizeAt_frame _ _ _ (htobe64_length _)]; rfl
    obtain ⟨m1, h1, _⟩ := isvalid_label_spec alloc m0 1 hsome (by decide) ha
    have hbytes : (m0.storage.bytes.drop 9).take 1 = [0] := by
      show ((T.NETOP_WRITE :: (htobe64 1 ++ 0 :: X)).drop 9).take 1 = [0]
      rw [label_bytes_frame _ _ _ _ (htobe64_length _)]; rfl
    rw [hbytes] at h1
    have hne : ¬ (strlen (([0] : List Byte) ++ [0]) = 1) := by decide
    simp only [hne, decide_False] at h1
    exact verdict_of alloc T _ m1 false false
      (by rw [isvalid_opcode_ok alloc T (received T.NETOP_WRITE S) true true _ hneeds rfl]
          exact sections_label_fail alloc true m0 m1 h1)
  · rw [if_neg ha]
    exact arriving_refused alloc T (received T.NETOP_WRITE S) true 1 (0 :: X) hneeds rfl
      (by decide) (by simpa using ha)

/-! ### C10: Sections of a valid frame -/

/-- Claim C10, the code at the failing input: for every opcode table, a SIGN
message whose storage is the opcode byte followed by a label section of two
bytes (11 bytes in all) gets `isValid = (true, false)`, and so does an ERROR
message whose empty label is followed by an empty data section (17 bytes),
when the allocator grants the one byte of the label copy (the process is
terminated when it refuses that byte). -/
theorem valid_frame_with_unrequired_section (alloc : Nat → Bool) (T : Opcodes) :
    verdict alloc T (received T.NETOP_SIGN (T.NETOP_SIGN :: (htobe64 2 ++ [97, 98])))
        = some (true, false)
      ∧ (T.NETOP_SIGN :: (htobe64 2 ++ [97, 98])).length = 11
      ∧ verdict alloc T (received T.NETOP_ERROR (T.NETOP_ERROR :: (htobe64 0 ++ htobe64 0)))
          = (if alloc 1 = true then some (true, false) else none)
      ∧ (T.NETOP_ERROR :: (htobe64 0 ++ htobe64 0)).length = 17 := by
  refine ⟨?_, rfl, ?_, rfl⟩
  · obtain ⟨me, he, _⟩ := expected_label
      { received T.NETOP_SIGN (T.NETOP_SIGN :: (htobe64 2 ++ [97, 98]))
        with storage := ⟨T.NETOP_SIGN :: (htobe64 2 ++ [97, 98]), 1⟩ } 2
      (by
        show labelSizeAt (T.NETOP_SIGN :: (htobe64 2 ++ [97, 98])) = some 2
        rw [labelSizeAt_frame _ _ _ (htobe64_length _)]; rfl)
      (by decide)
      (by
        show dataSizeAt (T.NETOP_SIGN :: (htobe64 2 ++ [97, 98])) 2 = none
        unfold dataSizeAt
        rw [if_neg (by simp [htobe64_length])])
    have := plain_verdict alloc T T.NETOP_SIGN (htobe64 2 ++ [97, 98]) _ me (Or.inl rfl)
      (by rw [SSIZE_MAX_eq]; simp [htobe64_length]) he
    simpa [htobe64_length] using this
  · set S : List Byte := T.NETOP_ERROR :: (htobe64 0 ++ htobe64 0) with hSdef
    have hS : S = T.NETOP_ERROR
        :: (htobe64 ([] : List Byte).length ++ [] ++ (htobe64 ([] : List Byte).length ++ [] ++ []))
        := rfl
    have hneeds : needs T (received T.NETOP_ERROR S).opcode = some (true, false) :=
      needs_error T
    by_cases ha : alloc 1 = true
    swap
    · rw [if_neg ha]
      exact arriving_refused alloc T (received T.NETOP_ERROR S) false 0 (htobe64 0) hneeds rfl
        (by decide) (by simpa using ha)
    rw [if_pos ha]
    set m0 : netmsg := { received T.NETOP_ERROR S with storage := ⟨S, 1⟩ } with hm0
    have hl0 : labelSizeAt m0.storage.bytes = some 0 := by
      show labelSizeAt S = some 0
      rw [hS]; exact labelSizeAt_wf _ [] _ (by simp)
    obtain ⟨me, he, _⟩ := expected_both m0 0 0
      (by
        show labelSizeAt S = some 0
        rw [hS]; exact labelSizeAt_wf _ [] _ (by simp))
      (by
        show dataSizeAt S 0 = some 0
        rw [hS]; exact dataSizeAt_wf _ [] [] [] (by simp))
      (by decide)
    obtain ⟨m', hv, _⟩ := sections_verdict alloc true false m0 me _
      (fun _ => ⟨T.NETOP_ERROR, [], _, hS, by simp⟩) (fun h => by cases h)
      (by show S.length ≤ SSIZE_MAX; rw [SSIZE_MAX_eq]; simp [hSdef, htobe64_length])
      (fun _ => labelBufferGranted_of alloc _ 0 hl0 ha) (fun h => by cases h) he
    have hl : m0.storage.bytes.length = 17 := rfl
    rw [hl] at hv
    simp only [Nat.cast_ofNat, decide_True, ne_eq, not_true_eq_false, decide_False] at hv
    exact verdict_of alloc T _ m' true false
      (by rw [isvalid_opcode_ok alloc T (received T.NETOP_ERROR S) true false _ hneeds rfl]
          exact hv)

/-! ## Lemmas on the allocator and the constructor -/

theorem digitChar_spec (k : Nat) (h : k < 10) :
    (Nat.digitChar k).isDigit = true ∧ (Nat.digitChar k).toNat - '0'.toNat = k
      ∧ c_isspace (Nat.digitChar k) = false ∧ Nat.digitChar k ≠ '-'
      ∧ Nat.digitChar k ≠ '+' := by
  interval_cases k <;> decide

theorem toDigitsCore_spec (fuel : Nat) : ∀ (n : Nat) (ds : List Char), n < fuel →
    ∃ front, Nat.toDigitsCore 10 fuel n ds = front ++ ds ∧ front ≠ []
      ∧ (∀ c ∈ front, ∃ k, k < 10 ∧ c = Nat.digitChar k)
      ∧ front.foldl digitStep 0 = n := by
  induction fuel with
  | zero => intro n ds h; omega
  | succ fuel ih =>
    intro n ds h
    unfold Nat.toDigitsCore
    by_cases h0 : n / 10 = 0
    · simp only [h0, if_true]
      refine ⟨[Nat.digitChar (n % 10)], rfl, by simp, ?_, ?_⟩
      · intro c hc
        simp only [List.mem_singleton] at hc
        exact ⟨n % 10, Nat.mod_lt _ (by decide), hc⟩
      · simp only [List.foldl, digitStep]
        rw [(digitChar_spec (n % 10) (Nat.mod_lt _ (by decide))).2.1]
        omega
    · simp only [h0, if_false]
      obtain ⟨front, hf, _, hdig, hval⟩ := ih (n / 10) (Nat.digitChar (n % 10) :: ds) (by omega)
      refine ⟨front ++ [Nat.digitChar (n % 10)], by rw [hf]; simp, by simp, ?_, ?_⟩
      · intro c hc
        rcases List.mem_append.mp hc with hc | hc
        · exact hdig c hc
        · simp only [List.mem_singleton] at hc
          exact ⟨n % 10, Nat.mod_lt _ (by decide), hc⟩
      · rw [List.foldl_append, hval]
        simp only [List.foldl, digitStep]
        rw [(digitChar_spec (n % 10) (Nat.mod_lt _ (by decide))).2.1]
        omega

theorem fmt_llu_spec (n : Nat) :
    fmt_llu n ≠ [] ∧ (∀ c ∈ fmt_llu n, ∃ k, k < 10 ∧ c = Nat.digitChar k)
      ∧ (fmt_llu n).foldl digitStep 0 = n := by
  obtain ⟨front, hf, hne, hdig, hval⟩ := toDigitsCore_spec (n + 1) n [] (by omega)
  have : fmt_llu n = front := by
    unfold fmt_llu Nat.toDigits
    rw [hf, List.append_nil]
  rw [this]
  exact ⟨hne, hdig, hval⟩

theorem takeWhile_digits (ds : List Char)
    (h : ∀ c ∈ ds, ∃ k, k < 10 ∧ c = Nat.digitChar k) : ds.takeWhile Char.isDigit = ds := by
  induction ds with
  | nil => rfl
  | cons c t ih =>
    obtain ⟨k, hk, hc⟩ := h c (List.mem_cons_self _ _)
    have hd : c.isDigit = true := by rw [hc]; exact (digitChar_spec k hk).1
    rw [List.takeWhile_cons, hd]
    simp only [if_true]
    rw [ih (fun c' hc' => h c' (List.mem_cons_of_mem _ hc'))]

theorem scan_llu_fmt (n : Nat) (h : n ≤ UINT64_MAX) : scan_llu (fmt_llu n) = some n := by
  obtain ⟨hne, hdig, hval⟩ := fmt_llu_spec n
  cases hds : fmt_llu n with
  | nil => exact absurd hds hne
  | cons c t =>
    rw [hds] at hdig hval
    obtain ⟨k, hk, hc⟩ := hdig c (List.mem_cons_self _ _)
    obtain ⟨_, _, hws, hminus, hplus⟩ := digitChar_spec k hk
    rw [← hc] at hws hminus hplus
    have hdrop : (c :: t).dropWhile c_isspace = c :: t := by
      rw [List.dropWhile_cons, hws]; simp
    have hsigned : scan_sign (c :: t) = (false, c :: t) := by
      unfold scan_sign
      split
      · rename_i heq; simp only [List.cons.injEq] at heq; exact absurd heq.1 hminus
      · rename_i heq; simp only [List.cons.injEq] at heq; exact absurd heq.1 hplus
      · rfl
    have hv : List.foldl (fun acc c => acc * 10 + (c.toNat - '0'.toNat)) 0 (c :: t) = n := hval
    unfold scan_llu
    simp only [hdrop, hsigned, takeWhile_digits (c :: t) hdig, List.isEmpty_cons,
      Bool.false_eq_true, if_false, hv, if_neg (Nat.not_lt.mpr h)]

theorem scan_literal_self (l rest : List Char) : scan_literal l (l ++ rest) = some rest := by
  induction l with
  | nil => cases rest <;> rfl
  | cons c t ih => simp [scan_literal, ih]

/-- The path of an identifier parses back to the identifier. -/
theorem path_id_pathOf (MESSAGES : String) (i : Nat) (h : i ≤ UINT64_MAX) :
    path_id MESSAGES (pathOf MESSAGES i) = some i := by
  unfold path_id pathOf
  have : (MESSAGES.data ++ '/' :: fmt_llu i) = (MESSAGES.data ++ ['/']) ++ fmt_llu i := by simp
  simp only [this, scan_literal_self, Option.some_bind, scan_llu_fmt i h]

theorem reservepath_pool (M : String) (a : Allocator) (i : Nat) (rest : List Nat)
    (h : a.freefiles = i :: rest) :
    msgfile_reservepath M a = (some (pathOf M i), { a with freefiles := rest }) := by
  unfold msgfile_reservepath
  rw [h]
  rfl

theorem reservepath_mint (M : String) (a : Allocator) (h : a.freefiles = [])
    (hc : a.maxfileid ≠ UINT64_MAX) :
    msgfile_reservepath M a
      = (some (pathOf M a.maxfileid), { a with maxfileid := a.maxfileid + 1 }) := by
  unfold msgfile_reservepath
  rw [h]
  simp only [hc, if_false]
  rfl

theorem reservepath_exhausted (M : String) (a : Allocator) (h : a.freefiles = [])
    (hc : a.maxfileid = UINT64_MAX) : msgfile_reservepath M a = (none, a) := by
  unfold msgfile_reservepath
  rw [h]
  simp only [hc, if_true]

theorem releasepath_of_id (M : String) (a : Allocator) (p : String) (i : Nat)
    (h : path_id M p = some i) :
    msgfile_releasepath M a p = some { a with freefiles := i :: a.freefiles } := by
  unfold msgfile_releasepath
  unfold path_id at h
  rw [h]

theorem releasepath_pathOf (M : String) (a : Allocator) (i : Nat) (h : i ≤ UINT64_MAX) :
    msgfile_releasepath M a (pathOf M i) = some { a with freefiles := i :: a.freefiles } :=
  releasepath_of_id M a _ i (path_id_pathOf M i h)

theorem reservepath_cases (M : String) (a : Allocator) (p : String) (a1 : Allocator)
    (h : msgfile_reservepath M a = (some p, a1)) :
    (∃ i rest, a.freefiles = i :: rest ∧ p = pathOf M i ∧ a1 = { a with freefiles := rest })
      ∨ (a.freefiles = [] ∧ a.maxfileid ≠ UINT64_MAX ∧ p = pathOf M a.maxfileid
          ∧ a1 = { a with maxfileid := a.maxfileid + 1 }) := by
  cases hf : a.freefiles with
  | nil =>
    by_cases hc : a.maxfileid = UINT64_MAX
    · rw [reservepath_exhausted M a hf hc] at h
      simp at h
    · rw [reservepath_mint M a hf hc] at h
      simp only [Prod.mk.injEq, Option.some.injEq] at h
      exact Or.inr ⟨rfl, hc, h.1.symm, by rw [← h.2, hf]⟩
  | cons i rest =>
    rw [reservepath_pool M a i rest hf] at h
    simp only [Prod.mk.injEq, Option.some.injEq] at h
    exact Or.inl ⟨i, rest, rfl, h.1.symm, h.2.symm⟩

theorem reserve_release_reserve (M : String) (a a1 : Allocator) (p : String) (hwf : a.wf)
    (h : msgfile_reservepath M a = (some p, a1)) :
    ∃ i, p = pathOf M i ∧ path_id M p = some i
      ∧ msgfile_releasepath M a1 p = some { a1 with freefiles := i :: a1.freefiles }
      ∧ msgfile_reservepath M { a1 with freefiles := i :: a1.freefiles }
          = (some (pathOf M i), a1) := by
  have key : ∃ i, p = pathOf M i ∧ i ≤ UINT64_MAX := by
    rcases reservepath_cases M a p a1 h with ⟨i, rest, hf, hp, _⟩ | ⟨_, _, hp, _⟩
    · exact ⟨i, hp, hwf.2 i (by rw [hf]; exact List.mem_cons_self _ _)⟩
    · exact ⟨a.maxfileid, hp, hwf.1⟩
  obtain ⟨i, hp, hi⟩ := key
  have hid : path_id M p = some i := by rw [hp]; exact path_id_pathOf M i hi
  exact ⟨i, hp, hid, releasepath_of_id M a1 p i hid,
    reservepath_pool M _ i a1.freefiles rfl⟩

theorem release_then_reserve (M : String) : ∀ (ids : List Nat) (a : Allocator),
    (∀ i ∈ ids, i ≤ UINT64_MAX) →
    ∃ a', releaseAll M a ids = some a'
      ∧ reserveN M ids.length a' = (ids.reverse.map fun i => some (pathOf M i), a) := by
  intro ids
  induction ids with
  | nil => intro a _; exact ⟨a, rfl, rfl⟩
  | cons i rest ih =>
    intro a h
    obtain ⟨a', hrel, hres⟩ := ih { a with freefiles := i :: a.freefiles }
      (fun j hj => h j (List.mem_cons_of_mem _ hj))
    refine ⟨a', ?_, ?_⟩
    · unfold releaseAll
      rw [releasepath_pathOf M a i (h i (List.mem_cons_self _ _))]
      exact hrel
    · have hsplit : ∀ (k : Nat) (b : Allocator) (ps : List (Option String)) (c : Allocator),
          reserveN M k b = (ps, c) →
          reserveN M (k + 1) b
            = (ps ++ [(msgfile_reservepath M c).1], (msgfile_reservepath M c).2) := by
        intro k
        induction k with
        | zero =>
          intro b ps c hk
          simp only [reserveN, Prod.mk.injEq] at hk
          rw [← hk.1, ← hk.2]
          rfl
        | succ k ihk =>
          intro b ps c hk
          rw [reserveN] at hk
          simp only [Prod.mk.injEq] at hk
          have := ihk (msgfile_reservepath M b).2 _ c (Prod.ext rfl hk.2)
          rw [reserveN, this, ← hk.1]
          rfl
      rw [List.length_cons, hsplit _ _ _ _ hres,
        reservepath_pool M { a with freefiles := i :: a.freefiles } i a.freefiles rfl]
      simp

theorem committype_empty (o : Byte) (path : Option String) (d : Bool) (e : String) :
    netmsg_committype ⟨o, path, ⟨[], 0⟩, d, e⟩ = some ⟨o, path, ⟨[o], 0⟩, d, e⟩ := by
  unfold netmsg_committype
  simp [Storage.seek, Storage.write, SSIZE_MAX, Storage.zeros]

theorem new_disk (T : Opcodes) (M : String) (a a1 : Allocator) (opcode : Byte) (p : String)
    (hop : opcode = T.NETOP_WRITE ∨ opcode = T.NETOP_BUNDLE)
    (hres : msgfile_reservepath M a = (some p, a1)) :
    netmsg_new T M true a opcode = some (some (created opcode (some p)), a1) := by
  unfold netmsg_new
  rw [if_pos hop, hres]
  simp only [Bool.not_true, Bool.false_eq_true, if_false, committype_empty]
  rfl

theorem new_disk_exhausted (T : Opcodes) (M : String) (openok : Bool) (a a1 : Allocator)
    (opcode : Byte) (hop : opcode = T.NETOP_WRITE ∨ opcode = T.NETOP_BUNDLE)
    (hres : msgfile_reservepath M a = (none, a1)) :
    netmsg_new T M openok a opcode = some (none, a1) := by
  unfold netmsg_new
  rw [if_pos hop, hres]

theorem pathOf_inj (M : String) (i j : Nat) (hi : i ≤ UINT64_MAX) (hj : j ≤ UINT64_MAX)
    (h : pathOf M i = pathOf M j) : i = j := by
  have h1 := path_id_pathOf M i hi
  rw [h, path_id_pathOf M j hj] at h1
  exact (Option.some.inj h1).symm

theorem inv_init (M : String) : AllocSys.Inv M ⟨freshAllocator, []⟩ := by
  refine ⟨by decide, List.nodup_nil, List.nodup_nil, ?_, ?_⟩
  · intro i hi; simp [freshAllocator] at hi
  · intro p hp; simp at hp

theorem inv_step (M : String) (s s' : AllocSys) (op : AllocOp) (hinv : AllocSys.Inv M s)
    (h : s.step M op = some s') : AllocSys.Inv M s' := by
  obtain ⟨hmax, hpool, hlive, hbound, hpaths⟩ := hinv
  have hU : UINT64_MAX = 18446744073709551615 := by decide
  cases op with
  | reserve =>
    unfold AllocSys.step at h
    cases hf : s.alloc.freefiles with
    | nil =>
      by_cases hc : s.alloc.maxfileid = UINT64_MAX
      · rw [reservepath_exhausted M s.alloc hf hc] at h
        simp only [Option.some.injEq] at h
        rw [← h]
        exact ⟨hmax, hpool, hlive, hbound, hpaths⟩
      · rw [reservepath_mint M s.alloc hf hc] at h
        simp only [Option.some.injEq] at h
        rw [← h]
        have hlt : s.alloc.maxfileid < UINT64_MAX := lt_of_le_of_ne hmax hc
        refine ⟨by show s.alloc.maxfileid + 1 ≤ UINT64_MAX; omega, hpool, ?_, ?_, ?_⟩
        · refine List.nodup_cons.mpr ⟨?_, hlive⟩
          intro hmem
          obtain ⟨j, hj, hjlt, _⟩ := hpaths _ hmem
          have := pathOf_inj M _ _ hmax (by omega) hj
          omega
        · intro i hi
          have := hbound i hi
          show i < s.alloc.maxfileid + 1
          omega
        · intro p hp
          rcases List.mem_cons.mp hp with hp | hp
          · exact ⟨s.alloc.maxfileid, hp, by show _ < s.alloc.maxfileid + 1; omega,
              by show s.alloc.maxfileid ∉ s.alloc.freefiles; rw [hf]; simp⟩
          · obtain ⟨j, hj, hjlt, hjn⟩ := hpaths p hp
            exact ⟨j, hj, by show j < s.alloc.maxfileid + 1; omega, hjn⟩
    | cons i rest =>
      rw [reservepath_pool M s.alloc i rest hf] at h
      simp only [Option.some.injEq] at h
      rw [← h]
      rw [hf] at hpool hbound
      have hi : i < s.alloc.maxfileid := hbound i (List.mem_cons_self _ _)
      have hirest : i ∉ rest := (List.nodup_cons.mp hpool).1
      refine ⟨hmax, (List.nodup_cons.mp hpool).2, ?_, ?_, ?_⟩
      · refine List.nodup_cons.mpr ⟨?_, hlive⟩
        intro hmem
        obtain ⟨j, hj, hjlt, hjn⟩ := hpaths _ hmem
        have := pathOf_inj M _ _ (by omega) (by omega) hj
        rw [hf] at hjn
        exact hjn (this ▸ List.mem_cons_self _ _)
      · intro j hj
        exact hbound j (List.mem_cons_of_mem _ hj)
      · intro p hp
        rcases List.mem_cons.mp hp with hp | hp
        · exact ⟨i, hp, hi, hirest⟩
        · obtain ⟨j, hj, hjlt, hjn⟩ := hpaths p hp
          rw [hf] at hjn
          exact ⟨j, hj, hjlt, fun hm => hjn (List.mem_cons_of_mem _ hm)⟩
  | release p =>
    unfold AllocSys.step at h
    by_cases hp : p ∈ s.live
    · simp only [hp, if_true] at h
      obtain ⟨i, hpi, hilt, hin⟩ := hpaths p hp
      have hid : path_id M p = some i := by rw [hpi]; exact path_id_pathOf M i (by omega)
      rw [releasepath_of_id M s.alloc p i hid] at h
      simp only [Option.some.injEq] at h
      rw [← h]
      refine ⟨hmax, List.nodup_cons.mpr ⟨hin, hpool⟩, hlive.erase p, ?_, ?_⟩
      · intro j hj
        rcases List.mem_cons.mp hj with hj | hj
        · rw [hj]; exact hilt
        · exact hbound j hj
      · intro q hq
        have hq' : q ∈ s.live := List.mem_of_mem_erase hq
        have hne : q ≠ p := fun heq => by
          rw [heq] at hq
          exact (List.Nodup.not_mem_erase hlive) hq
        obtain ⟨j, hj, hjlt, hjn⟩ := hpaths q hq'
        refine ⟨j, hj, hjlt, ?_⟩
        intro hm
        rcases List.mem_cons.mp hm with hm | hm
        · exact hne (by rw [hj, hpi, hm])
        · exact hjn hm
    · simp only [hp, if_false] at h
      cases h

theorem inv_run (M : String) : ∀ (ops : List AllocOp) (s s' : AllocSys), AllocSys.Inv M s →
    AllocSys.run M ops s = some s' → AllocSys.Inv M s' := by
  intro ops
  induction ops with
  | nil =>
    intro s s' hinv h
    simp only [AllocSys.run, Option.some.injEq] at h
    rw [← h]; exact hinv
  | cons op ops ih =>
    intro s s' hinv h
    unfold AllocSys.run at h
    cases hs : s.step M op with
    | none => rw [hs] at h; cases h
    | some s1 =>
      rw [hs] at h
      exact ih s1 s' (inv_step M s s1 op hinv hs) h

theorem inUse_of_inv (M : String) (s : AllocSys) (hinv : AllocSys.Inv M s) (i : Nat)
    (hi : i ∈ s.inUse M) : pathOf M i ∈ s.live ∧ i < s.alloc.maxfileid
      ∧ i ∉ s.alloc.freefiles := by
  obtain ⟨hmax, _, _, _, hpaths⟩ := hinv
  have hU : UINT64_MAX = 18446744073709551615 := by decide
  unfold AllocSys.inUse at hi
  obtain ⟨p, hp, hpid⟩ := List.mem_filterMap.mp hi
  obtain ⟨j, hj, hjlt, hjn⟩ := hpaths p hp
  rw [hj, path_id_pathOf M j (by omega)] at hpid
  have : j = i := Option.some.inj hpid
  subst this
  exact ⟨hj ▸ hp, hjlt, hjn⟩

theorem reserveN_fresh (M : String) : ∀ (n c : Nat), c + n ≤ UINT64_MAX →
    reserveN M n ⟨[], c⟩ = ((List.range' c n).map fun i => some (pathOf M i), ⟨[], c + n⟩) := by
  intro n
  induction n with
  | zero => intro c _; rfl
  | succ n ih =>
    intro c h
    have hU : UINT64_MAX = 18446744073709551615 := by decide
    have hc : (⟨[], c⟩ : Allocator).maxfileid ≠ UINT64_MAX := by
      show c ≠ UINT64_MAX
      omega
    rw [reserveN, reservepath_mint M ⟨[], c⟩ rfl hc]
    simp only
    rw [ih (c + 1) (by omega)]
    simp only [List.range'_succ, List.map_cons]
    congr 2
    omega

/-! ## Further lemmas on the codec -/

theorem htobe64_byte (n i : Nat) (h : i < 8) :
    ((htobe64 n).getD i 0).val = n / 256 ^ (7 - i) % 256 := by
  interval_cases i <;> simp [htobe64, byteOf]

theorem claimedLabelSize_eq (m : netmsg) :
    claimedLabelSize m = some (labelSizeAt m.storage.bytes) := by
  obtain ⟨m1, h1, _⟩ := getclaimedlabelsize_spec m
  unfold claimedLabelSize
  rw [h1]; rfl

theorem claimedDataSize_eq (m : netmsg) (n : Nat)
    (hn : labelSizeAt m.storage.bytes = some n) (hoff : 1 + 8 + n ≤ SSIZE_MAX) :
    claimedDataSize m = some (dataSizeAt m.storage.bytes n) := by
  obtain ⟨m1, h1, _⟩ := getclaimeddatasize_spec m n hn hoff
  unfold claimedDataSize
  rw [h1]; rfl

theorem getclaimedlabelsize_short (m : netmsg) (h : m.storage.bytes.length < 9) :
    ∃ pos, netmsg_getclaimedlabelsize m
      = some (none, { m with storage := ⟨m.storage.bytes, pos⟩,
                             errstr := "label size is incompletely received" }) := by
  unfold netmsg_getclaimedlabelsize
  dsimp only
  rw [seek_set _ 1 (by omega) (by rw [SSIZE_MAX_eq]; omega)]
  dsimp only
  rw [read_ok _ 8 (by decide)]
  simp only [List.length_take, List.length_drop]
  rw [if_pos (by simp; omega)]
  exact ⟨_, rfl⟩

theorem setlabel_backup_short_label (alloc : Nat → Bool) (m : netmsg) (n : Nat)
    (hn : labelSizeAt m.storage.bytes = some n)
    (hshort : m.storage.bytes.length < 1 + 8 + n) (hoff : 1 + 8 + n ≤ SSIZE_MAX) :
    setlabel_backup alloc m = none := by
  obtain ⟨m1, h1, hs1⟩ := getclaimedlabelsize_spec m
  have hb := hs1.2.1
  have hmax := SSIZE_MAX_eq
  unfold setlabel_backup
  rw [h1, hn]
  dsimp only
  rw [seek_end _ (by rw [hb]; omega)]
  dsimp only
  rw [toSsize_of_lt _ (by omega), hb]
  have hsz : ofSsize ((m.storage.bytes.length : Int) - ((n + 8 + 1 : Nat) : Int))
      = 2 ^ 64 - (1 + 8 + n - m.storage.bytes.length) := by
    unfold ofSsize
    omega
  rw [hsz, if_pos (by omega)]
  cases hr : reallocarray alloc (2 ^ 64 - (1 + 8 + n - m.storage.bytes.length)) 1 with
  | false => rfl
  | true =>
    simp only [Bool.not_true, Bool.false_eq_true, if_false]
    rw [seek_set _ _ (by omega) (by rw [SSIZE_MAX_eq]; omega)]
    dsimp only
    unfold Storage.read
    rw [if_pos (by rw [SSIZE_MAX_eq]; omega)]

theorem setlabel_none_of_backup (alloc : Nat → Bool) (m : netmsg) (L : List Byte)
    (h : setlabel_backup alloc m = none) : netmsg_setlabel alloc m L = none := by
  unfold netmsg_setlabel
  rw [h]

theorem toSsize_wrap : toSsize (1 + 8 + (2 ^ 64 - 9)) = 0 := by
  unfold toSsize
  norm_num

theorem setdata_wrapped_offset (o : Byte) (n : Nat) (hn : n < 2 ^ 64)
    (hw : toSsize (1 + 8 + n) = 0) :
    claimedLabelSize (received o (o :: (htobe64 n ++ []))) = some (some n)
      ∧ (netmsg_setdata (received o (o :: (htobe64 n ++ []))) hello 5).map
          (fun r => (r.1, r.2.opcode, r.2.storage.bytes))
        = some (0, o, htobe64 5 ++ hello) := by
  have hl : labelSizeAt (received o (o :: (htobe64 n ++ []))).storage.bytes = some n := by
    show labelSizeAt (o :: (htobe64 n ++ [])) = some n
    rw [labelSizeAt_frame _ _ _ (htobe64_length _), be64toh_htobe64 _ hn]
  refine ⟨by rw [claimedLabelSize_eq, hl], ?_⟩
  obtain ⟨m1, h1, hs1⟩ := getclaimedlabelsize_spec (received o (o :: (htobe64 n ++ [])))
  rw [hl] at h1
  unfold netmsg_setdata
  rw [h1]
  dsimp only
  rw [hw, truncate_int _ 0 (by omega) (by rw [SSIZE_MAX_eq]; omega)]
  dsimp only
  rw [seek_end _ (by simp [Storage.zeros])]
  dsimp only
  rw [write_at_end _ _ 8 (by simp [Storage.zeros]) (by decide)
    (by simp [Storage.zeros, SSIZE_MAX_eq])]
  have h8 : (htobe64 5).take 8 = htobe64 5 := rfl
  simp only [h8, htobe64_length, Nat.cast_ofNat, ne_eq, not_true_eq_false, if_false]
  rw [write_at_end _ _ 5 (by simp [Storage.zeros, htobe64_length]) (by decide)
    (by simp [Storage.zeros, htobe64_length, SSIZE_MAX_eq, hello])]
  have h5 : hello.take 5 = hello := rfl
  have hh : hello.length = 5 := rfl
  have ht : toSsize 5 = 5 := by unfold toSsize; norm_num
  simp only [h5, hh, ht, Nat.cast_ofNat, ne_eq, not_true_eq_false, if_false, Option.map_some',
    hs1.1]
  simp [Storage.zeros, received]

theorem take_min_length (l : List Byte) (d : Nat) : l.take (min d l.length) = l.take d := by
  by_cases h : d ≤ l.length
  · rw [Nat.min_eq_left h]
  · rw [Nat.min_eq_right (by omega), List.take_length, List.take_of_length_le (by omega)]

theorem getdata_null_iff (alloc : Nat → Bool) (m : netmsg) :
    (∃ m', netmsg_getdata alloc m = some (none, m'))
      ↔ (claimedLabelSize m = some none ∨ claimedDataSize m = some none) := by
  obtain ⟨m1, h1, hs1⟩ := getclaimedlabelsize_spec m
  have hc := getclaimeddatasize_congr m m1 hs1.2.1
  have hcl := claimedLabelSize_eq m
  have hcd : claimedDataSize m = (netmsg_getclaimeddatasize m1).map Prod.fst := hc.symm
  unfold netmsg_getdata
  rw [h1]
  cases hl : labelSizeAt m.storage.bytes with
  | none =>
    rw [hl] at hcl
    simp only [hcl, true_or, iff_true]
    exact ⟨m1, rfl⟩
  | some n =>
    rw [hl] at hcl
    dsimp only
    rw [hcl, hcd]
    cases hd : netmsg_getclaimeddatasize m1 with
    | none => simp
    | some r =>
      obtain ⟨r1, m2⟩ := r
      cases r1 with
      | none => simp
      | some d =>
        simp only [Option.map_some', Option.some.injEq, reduceCtorEq, or_self, iff_false,
          not_exists]
        intro m'
        split
        · simp
        · split
          · simp
          · split
            · simp
            · simp

/-! ## The claims on the allocator, the constructor and the setters -/

/-! ### C11: Recycling is last-in-first-out -/

/-- Claim C11: the path reserve formats for an identifier parses back to it in
release; a path reserved, then released, is the path the next reserve
returns, leaving the allocator as it was after the first reserve; after the
release of `i1, ..., ik` in that order the next `k` reserves return the paths
of `ik, ..., i1`; and construct, teardown, construct of a WRITE or BUNDLE
message gives the second message the path of the first. -/
theorem recycling_lifo (T : Opcodes) (M : String) (a : Allocator) (hwf : a.wf) :
    (∀ i, i ≤ UINT64_MAX → path_id M (pathOf M i) = some i)
      ∧ (∀ p a1, msgfile_reservepath M a = (some p, a1) →
          ∃ i a2, p = pathOf M i ∧ path_id M p = some i
            ∧ msgfile_releasepath M a1 p = some a2
            ∧ a2.freefiles = i :: a1.freefiles
            ∧ msgfile_reservepath M a2 = (some p, a1))
      ∧ (∀ ids : List Nat, (∀ i ∈ ids, i ≤ UINT64_MAX) →
          ∃ a', releaseAll M a ids = some a'
            ∧ reserveN M ids.length a' = (ids.reverse.map fun i => some (pathOf M i), a))
      ∧ (∀ opcode m a1, opcode = T.NETOP_WRITE ∨ opcode = T.NETOP_BUNDLE →
          netmsg_new T M true a opcode = some (some m, a1) →
          ∃ p a2 m' a3, m.path = some p ∧ netmsg_teardown M a1 m = some a2
            ∧ netmsg_new T M true a2 opcode = some (some m', a3)
            ∧ m'.path = some p ∧ a3 = a1) := by
  refine ⟨fun i hi => path_id_pathOf M i hi, ?_, fun ids h => release_then_reserve M ids a h, ?_⟩
  · intro p a1 h
    obtain ⟨i, hp, hid, hrel, hres⟩ := reserve_release_reserve M a a1 p hwf h
    exact ⟨i, _, hp, hid, hrel, rfl, by rw [hres, hp]⟩
  · intro opcode m a1 hop hnew
    cases hr : msgfile_reservepath M a with
    | mk r a1' =>
      cases r with
      | none =>
        rw [new_disk_exhausted T M true a a1' opcode hop hr] at hnew
        simp at hnew
      | some p =>
        rw [new_disk T M a a1' opcode p hop hr] at hnew
        simp only [Option.some.injEq, Prod.mk.injEq] at hnew
        obtain ⟨hm, ha⟩ := hnew
        subst ha
        obtain ⟨i, hp, hid, hrel, hres⟩ := reserve_release_reserve M a a1' p hwf hr
        refine ⟨p, _, _, _, by rw [← hm]; rfl, ?_, new_disk T M _ a1' opcode p hop (by rw [hres, hp]),
          rfl, rfl⟩
        unfold netmsg_teardown
        rw [← hm]
        exact hrel

theorem recycling_lifo_witness :
    netmsg_new sampleOps "messages" true freshAllocator 1 = some (some freshWrite, ⟨[], 1⟩)
      ∧ ∃ p a2 m' a3, freshWrite.path = some p
        ∧ netmsg_teardown "messages" ⟨[], 1⟩ freshWrite = some a2
        ∧ netmsg_new sampleOps "messages" true a2 1 = some (some m', a3)
        ∧ m'.path = some p ∧ a3 = ⟨[], 1⟩ :=
  ⟨by rfl,
    (recycling_lifo sampleOps "messages" freshAllocator
      ⟨by decide, fun i hi => by simp [freshAllocator] at hi⟩).2.2.2 1 freshWrite ⟨[], 1⟩
      (Or.inl rfl) (by rfl)⟩

/-! ### C12: Allocator invariant -/

/-- Claim C12: after every sequence of reserve and release calls from the
initial state, in which a release is made only for a path reserved and not
released since, no identifier is at once in use and in the free pool, the
pool holds no identifier twice, every identifier in use or in the pool is
below the counter, and reserve returns neither a path nor an identifier that
is in use. -/
theorem allocator_invariant (M : String) (ops : List AllocOp) (s : AllocSys)
    (h : AllocSys.run M ops ⟨freshAllocator, []⟩ = some s) :
    (∀ i ∈ s.inUse M, i ∉ s.alloc.freefiles)
      ∧ s.alloc.freefiles.Nodup
      ∧ (∀ i ∈ s.inUse M ++ s.alloc.freefiles, i < s.alloc.maxfileid)
      ∧ (∀ p a', msgfile_reservepath M s.alloc = (some p, a') →
          p ∉ s.live ∧ ∀ i, path_id M p = some i → i ∉ s.inUse M) := by
  have hinv := inv_run M ops _ s (inv_init M) h
  have hU : UINT64_MAX = 18446744073709551615 := by decide
  refine ⟨fun i hi => (inUse_of_inv M s hinv i hi).2.2, hinv.2.1, ?_, ?_⟩
  · intro i hi
    rcases List.mem_append.mp hi with hi | hi
    · exact (inUse_of_inv M s hinv i hi).2.1
    · exact hinv.2.2.2.1 i hi
  · intro p a' hres
    have hnext : AllocSys.step M s .reserve = some ⟨a', p :: s.live⟩ := by
      unfold AllocSys.step
      rw [hres]
    have hinv' := inv_step M s _ .reserve hinv hnext
    have hnot : p ∉ s.live := (List.nodup_cons.mp hinv'.2.2.1).1
    refine ⟨hnot, ?_⟩
    intro i hid hi
    have hmem := (inUse_of_inv M s hinv i hi).1
    obtain ⟨j, hj, hjlt, _⟩ := hinv'.2.2.2.2 p (List.mem_cons_self _ _)
    have hjmax := hinv'.1
    rw [hj, path_id_pathOf M j (by omega)] at hid
    have : j = i := Option.some.inj hid
    subst this
    exact hnot (hj ▸ hmem)

theorem allocator_invariant_witness :
    AllocSys.run "messages" [.reserve, .reserve, .release "messages/0", .reserve]
        ⟨freshAllocator, []⟩ = some ⟨⟨[], 2⟩, ["messages/0", "messages/1"]⟩
      ∧ (∀ i ∈ AllocSys.inUse "messages" ⟨⟨[], 2⟩, ["messages/0", "messages/1"]⟩,
          i ∉ ([] : List Nat)) :=
  ⟨by rfl,
    (allocator_invariant "messages" [.reserve, .reserve, .release "messages/0", .reserve]
      ⟨⟨[], 2⟩, ["messages/0", "messages/1"]⟩ (by rfl)).1⟩

/-! ### C13: Minting and exhaustion -/

/-- Claim C13: with an empty pool reserve returns the path of the counter and
increments it, unless the counter is `2^64 - 1`, when it fails and leaves the
allocator as it was; with a non-empty pool it returns the path of the first
pool entry and leaves the counter alone; it fails exactly when the pool is
empty and the counter is `2^64 - 1`; and from the initial state the first `k`
reservations name the identifiers `0, ..., k - 1`. -/
theorem minting_and_exhaustion (M : String) (a : Allocator) :
    (a.freefiles = [] → a.maxfileid ≠ UINT64_MAX →
        msgfile_reservepath M a = (some (pathOf M a.maxfileid), ⟨[], a.maxfileid + 1⟩))
      ∧ (a.freefiles = [] → a.maxfileid = UINT64_MAX → msgfile_reservepath M a = (none, a))
      ∧ (∀ i rest, a.freefiles = i :: rest →
          msgfile_reservepath M a = (some (pathOf M i), ⟨rest, a.maxfileid⟩))
      ∧ ((msgfile_reservepath M a).1 = none ↔ a.freefiles = [] ∧ a.maxfileid = UINT64_MAX)
      ∧ (∀ k, k ≤ UINT64_MAX →
          reserveN M k freshAllocator
            = ((List.range k).map fun i => some (pathOf M i), ⟨[], k⟩)) := by
  refine ⟨?_, fun hf hc => reservepath_exhausted M a hf hc,
    fun i rest hf => reservepath_pool M a i rest hf, ?_, ?_⟩
  · intro hf hc
    rw [reservepath_mint M a hf hc, hf]
  · constructor
    · intro h
      cases hf : a.freefiles with
      | nil =>
        refine ⟨rfl, ?_⟩
        by_contra hc
        rw [reservepath_mint M a hf hc] at h
        simp at h
      | cons i rest =>
        rw [reservepath_pool M a i rest hf] at h
        simp at h
    · rintro ⟨hf, hc⟩
      rw [reservepath_exhausted M a hf hc]
  · intro k hk
    have := reserveN_fresh M k 0 (by omega)
    rw [List.range_eq_range']
    simpa [freshAllocator] using this

theorem minting_and_exhaustion_witness :
    msgfile_reservepath "messages" ⟨[], 7⟩ = (some "messages/7", ⟨[], 8⟩)
      ∧ msgfile_reservepath "messages" ⟨[], UINT64_MAX⟩ = (none, ⟨[], UINT64_MAX⟩)
      ∧ msgfile_reservepath "messages" ⟨[3, 5], 7⟩ = (some "messages/3", ⟨[5], 7⟩) :=
  ⟨(minting_and_exhaustion "messages" ⟨[], 7⟩).1 rfl (by decide),
    (minting_and_exhaustion "messages" ⟨[], UINT64_MAX⟩).2.1 rfl rfl,
    (minting_and_exhaustion "messages" ⟨[3, 5], 7⟩).2.2.1 3 [5] rfl⟩

/-! ### C14: Construction -/

/-- Claim C15: for a message `netmsg_new` returns (any legal opcode), a
NUL-free label `L` and bytes `D`, after `setLabel(L)` and `setData(D, |D|)`
the storage is `[op] ++ be64(|L|) ++ L ++ be64(|D|) ++ D`, where the `i`-th
byte of `be64(n)` is `(n / 256^(7-i)) mod 256`; the label-size and data-size
probes return `|L|` and `|D|`; and decoding `be64(n)` gives `n` for every
`n < 2^64`. -/
theorem wire_layout (alloc : Nat → Bool) (T : Opcodes) (MESSAGES : String) (openok : Bool)
    (a a' : Allocator)
    (opcode : Byte) (m : netmsg) (L D : List Byte)
    (hnew : netmsg_new T MESSAGES openok a opcode = some (some m, a'))
    (hL : ∀ b ∈ L, b ≠ 0)
    (hlen : 1 + 8 + L.length + 8 + D.length ≤ SSIZE_MAX) :
    (∃ m1 m2 m3 m4, netmsg_setlabel alloc m L = some (0, m1)
        ∧ netmsg_setdata m1 D D.length = some (0, m2)
        ∧ m2.storage.bytes = [opcode] ++ htobe64 L.length ++ L ++ htobe64 D.length ++ D
        ∧ netmsg_getclaimedlabelsize m2 = some (some L.length, m3)
        ∧ netmsg_getclaimeddatasize m3 = some (some D.length, m4))
      ∧ (∀ n i, i < 8 → ((htobe64 n).getD i 0).val = n / 256 ^ (7 - i) % 256)
      ∧ (∀ n, (htobe64 n).length = 8)
      ∧ (∀ n, n < 2 ^ 64 → be64toh (htobe64 n) = n) := by
  have hmax := SSIZE_MAX_eq
  refine ⟨?_, htobe64_byte, htobe64_length, be64toh_htobe64⟩
  obtain ⟨_, _, hst⟩ := new_spec T MESSAGES openok a a' opcode m hnew
  have hS : m.storage.bytes = [opcode] := by rw [hst]
  obtain ⟨m1, h1, _, _, _, hb1⟩ := setlabel_fresh alloc m opcode L hS hL (by omega)
  obtain ⟨m2, h2, _, _, _, hb2⟩ := setdata_frame m1 opcode L [] D (by rw [hb1]; simp) hlen
  have hb2' : m2.storage.bytes
      = opcode :: (htobe64 L.length ++ L ++ (htobe64 D.length ++ D ++ [])) := by
    rw [hb2]; simp
  obtain ⟨m3, h3, hs3⟩ := getclaimedlabelsize_spec m2
  rw [hb2, labelSizeAt_wf opcode L _ (by omega)] at h3
  obtain ⟨m4, h4, _⟩ := getclaimeddatasize_spec m3 L.length
    (by rw [hs3.2.1, hb2]; exact labelSizeAt_wf opcode L _ (by omega)) (by omega)
  rw [hs3.2.1, hb2', dataSizeAt_wf opcode L D [] (by omega)] at h4
  exact ⟨m1, m2, m3, m4, h1, h2, by rw [hb2]; simp, h3, h4⟩

theorem wire_layout_witness :
    ∃ m1 m2 m3 m4, netmsg_setlabel sampleAlloc freshWrite obj42 = some (0, m1)
      ∧ netmsg_setdata m1 hello hello.length = some (0, m2)
      ∧ m2.storage.bytes = [1] ++ htobe64 obj42.length ++ obj42 ++ htobe64 hello.length ++ hello
      ∧ netmsg_getclaimedlabelsize m2 = some (some obj42.length, m3)
      ∧ netmsg_getclaimeddatasize m3 = some (some hello.length, m4) :=
  (wire_layout sampleAlloc sampleOps "messages" true freshAllocator ⟨[], 1⟩ 1 freshWrite obj42 hello
    (by rfl) (by simp [obj42]) (by decide)).1

/-! ### C16: setLabel on an arbitrary prior state -/

/-- Claim C16, the code at the failing input: for every opcode byte `o`, a
message whose storage is `[o] ++ be64(5) ++ "ob"` (the label-size probe
succeeds with 5, and only two label bytes are stored) makes `setLabel`, with
any new label, take the process-terminating path. -/
theorem setlabel_partial_label_aborts (alloc : Nat → Bool) (o : Byte) (L : List Byte) :
    claimedLabelSize (received o (o :: (htobe64 5 ++ [111, 98]))) = some (some 5)
      ∧ (received o (o :: (htobe64 5 ++ [111, 98]))).storage.bytes.length = 11
      ∧ netmsg_setlabel alloc (received o (o :: (htobe64 5 ++ [111, 98]))) L = none := by
  have hl : labelSizeAt (received o (o :: (htobe64 5 ++ [111, 98]))).storage.bytes
      = some 5 := by
    show labelSizeAt (o :: (htobe64 5 ++ [111, 98])) = some 5
    rw [labelSizeAt_frame _ _ _ (htobe64_length _)]; rfl
  refine ⟨by rw [claimedLabelSize_eq, hl], rfl, ?_⟩
  exact setlabel_none_of_backup alloc _ L
    (setlabel_backup_short_label alloc (received o (o :: (htobe64 5 ++ [111, 98]))) 5 hl
      (by show (o :: (htobe64 5 ++ [111, 98])).length < 1 + 8 + 5; simp [htobe64_length])
      (by rw [SSIZE_MAX_eq]; omega))

/-! ### C17: setData without a label-size field -/

/-- Claim C17: `setData` returns the failure status exactly when fewer than 9
bytes are stored (the label-size probe fails); it then leaves the stored bytes
alone and sets only the cursor and the error text.  When the probe succeeds
every status it returns is 0.  On a freshly constructed message it fails. -/
theorem setdata_needs_label_size (m : netmsg) (D : List Byte) (size : Nat) :
    (m.storage.bytes.length < 9 →
        ∃ pos, netmsg_setdata m D size
          = some (-1, { m with storage := ⟨m.storage.bytes, pos⟩,
                               errstr := "label size is incompletely received" }))
      ∧ (9 ≤ m.storage.bytes.length →
          ∀ r m', netmsg_setdata m D size = some (r, m') → r = 0)
      ∧ (∀ T MESSAGES openok a a' opcode,
          netmsg_new T MESSAGES openok a opcode = some (some m, a') →
          ∃ m', netmsg_setdata m D size = some (-1, m') ∧ m'.storage.bytes = [opcode]) := by
  have hshort : m.storage.bytes.length < 9 →
      ∃ pos, netmsg_setdata m D size
        = some (-1, { m with storage := ⟨m.storage.bytes, pos⟩,
                             errstr := "label size is incompletely received" }) := by
    intro h
    obtain ⟨pos, hp⟩ := getclaimedlabelsize_short m h
    refine ⟨pos, ?_⟩
    unfold netmsg_setdata
    rw [hp]
  refine ⟨hshort, ?_, ?_⟩
  · intro h r m' hres
    obtain ⟨m1, h1, _⟩ := getclaimedlabelsize_spec m
    have hsome : labelSizeAt m.storage.bytes
        = some (be64toh ((m.storage.bytes.drop 1).take 8)) := by
      unfold labelSizeAt; rw [if_pos h]
    unfold netmsg_setdata at hres
    rw [h1, hsome] at hres
    dsimp only at hres
    split at hres
    · cases hres
    · split at hres
      · cases hres
      · split at hres
        · cases hres
        · split at hres
          · cases hres
          · split at hres
            · cases hres
            · split at hres
              · cases hres
              · simp only [Option.some.injEq, Prod.mk.injEq] at hres
                exact hres.1.symm
  · intro T MESSAGES openok a a' opcode hnew
    obtain ⟨_, _, hst⟩ := new_spec T MESSAGES openok a a' opcode m hnew
    have hS : m.storage.bytes = [opcode] := by rw [hst]
    obtain ⟨pos, hp⟩ := hshort (by rw [hS]; simp)
    exact ⟨_, hp, hS⟩

theorem setdata_needs_label_size_witness :
    (∃ pos, netmsg_setdata freshWrite hello 5
        = some (-1, { freshWrite with storage := ⟨freshWrite.storage.bytes, pos⟩,
                                      errstr := "label size is incompletely received" }))
      ∧ ∀ r m', netmsg_setdata (received 1 scenarioB) hello 5 = some (r, m') → r = 0 :=
  ⟨(setdata_needs_label_size freshWrite hello 5).1 (by decide),
    (setdata_needs_label_size (received 1 scenarioB) hello 5).2.1 (by decide)⟩

/-! ### C18: setData replaces the payload -/

/-- Claim C19, the code at the failing input: for every opcode byte `o`, on
the storage `[o] ++ be64(2^64 - 9)` the data offset `1 + 8 + labelSize` wraps
to 0, `setData("hello", 5)` returns 0 and leaves the storage
`be64(5) ++ "hello"`, whose byte 0 is 0 whatever the recorded opcode. -/
theorem setdata_overwrites_opcode (o : Byte) :
    (claimedLabelSize (received o (o :: (htobe64 (2 ^ 64 - 9) ++ [])))
        = some (some (2 ^ 64 - 9))
      ∧ (netmsg_setdata (received o (o :: (htobe64 (2 ^ 64 - 9) ++ []))) hello 5).map
          (fun r => (r.1, r.2.opcode, r.2.storage.bytes))
        = some (0, o, htobe64 5 ++ hello))
      ∧ (htobe64 5 ++ hello).head? = some 0 :=
  ⟨setdata_wrapped_offset o (2 ^ 64 - 9) (by norm_num) toSsize_wrap, rfl⟩

/-! ### C20: getData and short reads -/

/-- Claim C20, counterexample: on the storage `[1] ++ be64(0) ++ be64(2^63)`
both size probes succeed, with claimed sizes 0 and `2^63`, no data byte is
stored, and `getData` takes the process-terminating path under every
allocator instead of returning an empty buffer with size 0; and on the
storage `[1] ++ be64(0) ++ be64(2^48) ++ [1, 2, 3]` both probes succeed, three
data bytes are stored, and `getData` takes the process-terminating path under
an allocator that refuses `2^48` bytes. -/
theorem getdata_oversized_claim_aborts :
    (claimedLabelSize (received 1 ([1] ++ htobe64 0 ++ htobe64 (2 ^ 63))) = some (some 0)
      ∧ claimedDataSize (received 1 ([1] ++ htobe64 0 ++ htobe64 (2 ^ 63)))
          = some (some (2 ^ 63))
      ∧ (received 1 ([1] ++ htobe64 0 ++ htobe64 (2 ^ 63))).storage.bytes.length = 1 + 8 + 0 + 8
      ∧ ∀ alloc, netmsg_getdata alloc (received 1 ([1] ++ htobe64 0 ++ htobe64 (2 ^ 63))) = none)
    ∧ (claimedLabelSize (received 1 ([1] ++ htobe64 0 ++ htobe64 (2 ^ 48) ++ [1, 2, 3]))
          = some (some 0)
      ∧ claimedDataSize (received 1 ([1] ++ htobe64 0 ++ htobe64 (2 ^ 48) ++ [1, 2, 3]))
          = some (some (2 ^ 48))
      ∧ (received 1 ([1] ++ htobe64 0 ++ htobe64 (2 ^ 48) ++ [1, 2, 3])).storage.bytes.length
          = 1 + 8 + 0 + 8 + 3
      ∧ sampleAlloc (2 ^ 48) = false
      ∧ netmsg_getdata sampleAlloc
          (received 1 ([1] ++ htobe64 0 ++ htobe64 (2 ^ 48) ++ [1, 2, 3])) = none) := by
  refine ⟨⟨by decide, by decide, by decide, fun alloc => ?_⟩,
    by decide, by decide, by decide, by decide, by decide⟩
  exact getdata_oversized alloc _ 0 (2 ^ 63) (by decide) (by decide) (by decide)
    (by rw [SSIZE_MAX_eq]; omega)

/-- Claim C20, amended: when the label-size and data-size probes succeed with
claimed sizes `n` and `d`, the data offset `1 + 8 + n + 8` and `d` are at most
`SSIZE_MAX`, the allocator grants a buffer of `d` bytes, and `a` bytes are
stored from that offset on, `getData` returns the first `min(d, a)` of those
bytes and sets `sizeOut` to `min(d, a)`; `getData` returns no buffer exactly
when one of the two probes fails; and when the allocator refuses the `d`
bytes, `getData` terminates the process. -/
theorem getdata_short_read (alloc : Nat → Bool) (m : netmsg) :
    (∀ n d, claimedLabelSize m = some (some n) → claimedDataSize m = some (some d) →
        1 + 8 + n + 8 ≤ SSIZE_MAX → d ≤ SSIZE_MAX → alloc d = true →
        ∃ m', netmsg_getdata alloc m
          = some (some ((m.storage.bytes.drop (1 + 8 + n + 8)).take
                (min d (m.storage.bytes.length - (1 + 8 + n + 8))),
              min d (m.storage.bytes.length - (1 + 8 + n + 8))), m'))
      ∧ ((∃ m', netmsg_getdata alloc m = some (none, m'))
          ↔ (claimedLabelSize m = some none ∨ claimedDataSize m = some none))
      ∧ (∀ n d, claimedLabelSize m = some (some n) → claimedDataSize m = some (some d) →
          1 + 8 + n + 8 ≤ SSIZE_MAX → alloc d = false → netmsg_getdata alloc m = none) := by
  have hmax := SSIZE_MAX_eq
  refine ⟨?_, getdata_null_iff alloc m, ?_⟩
  · intro n d hn hd hoff hsz ha
    rw [claimedLabelSize_eq] at hn
    have hn' : labelSizeAt m.storage.bytes = some n := Option.some.inj hn
    rw [claimedDataSize_eq m n hn' (by omega)] at hd
    have hd' : dataSizeAt m.storage.bytes n = some d := Option.some.inj hd
    obtain ⟨m', h, _⟩ := getdata_spec alloc m n d hn' hd' hoff hsz ha
    refine ⟨m', ?_⟩
    rw [h]
    have hl : ((m.storage.bytes.drop (1 + 8 + n + 8)).take d).length
        = min d (m.storage.bytes.length - (1 + 8 + n + 8)) := by
      rw [List.length_take, List.length_drop]
    have ht := take_min_length (m.storage.bytes.drop (1 + 8 + n + 8)) d
    rw [List.length_drop] at ht
    rw [hl, ht]
  · intro n d hn hd hoff ha
    rw [claimedLabelSize_eq] at hn
    have hn' : labelSizeAt m.storage.bytes = some n := Option.some.inj hn
    rw [claimedDataSize_eq m n hn' (by omega)] at hd
    have hd' : dataSizeAt m.storage.bytes n = some d := Option.some.inj hd
    exact getdata_refused alloc m n d hn' hd' hoff ha

theorem getdata_short_read_witness :
    ∃ m', netmsg_getdata sampleAlloc (received 1 ([1] ++ htobe64 0 ++ htobe64 7 ++ [1, 2, 3]))
      = some (some ([1, 2, 3], 3), m') :=
  (getdata_short_read sampleAlloc (received 1 ([1] ++ htobe64 0 ++ htobe64 7 ++ [1, 2, 3]))).1 0 7
    (by rfl) (by rfl) (by decide) (by decide) (by rfl)

end Netmsg
